import Mathlib

/-!
Verification of the hoop-buddy backend's `generateWorkout` controller
(workoutController: validation, prompt construction, the 50s timeout race,
and the staged JSON response-recovery logic), shallowly embedded over
`List Char` strings.
-/

set_option maxHeartbeats 1000000

/-! ## Characters and character classes -/

/-- Backtick character (U+0060). -/
def btick : Char := Char.ofNat 96

/-- Straight single quote (U+0027). -/
def apos : Char := Char.ofNat 39

/-- Left typographic double quote U+201C. -/
def ldq : Char := Char.ofNat 0x201C

/-- Right typographic double quote U+201D. -/
def rdq : Char := Char.ofNat 0x201D

/-- Left typographic single quote U+2018. -/
def lsq : Char := Char.ofNat 0x2018

/-- Right typographic single quote U+2019. -/
def rsq : Char := Char.ofNat 0x2019

/-- JSON insignificant whitespace as accepted by `JSON.parse`:
space, tab, line feed, carriage return. -/
def jsonWS (c : Char) : Bool :=
  c.toNat == 32 || c.toNat == 9 || c.toNat == 10 || c.toNat == 13

/-- JavaScript regular-expression `\s` class (as used by the code-fence
extraction regex): ASCII whitespace plus the Unicode space separators,
line/paragraph separators, NBSP and BOM. -/
def regexWS (c : Char) : Bool :=
  c.toNat == 32 || c.toNat == 9 || c.toNat == 10 || c.toNat == 11 ||
  c.toNat == 12 || c.toNat == 13 || c.toNat == 0xa0 || c.toNat == 0x1680 ||
  (0x2000 ≤ c.toNat && c.toNat ≤ 0x200a) || c.toNat == 0x2028 ||
  c.toNat == 0x2029 || c.toNat == 0x202f || c.toNat == 0x205f ||
  c.toNat == 0x3000 || c.toNat == 0xfeff

/-- ASCII decimal digit. -/
def isDigit (c : Char) : Bool := 48 ≤ c.toNat && c.toNat ≤ 57

/-! ## JSON values

`JSON.parse` produces JavaScript values; we model them with numbers kept as
their literal numeral token (JavaScript floats are out of scope; keeping the
token makes the model executable and exact on every input). Object fields are
kept in insertion order; duplicate keys are resolved as JavaScript does
(first position wins, last value wins), see `dedupJS`. -/

inductive Json where
  | null : Json
  | bool (b : Bool) : Json
  | num (lit : List Char) : Json
  | str (s : List Char) : Json
  | arr (elems : List Json) : Json
  | obj (fields : List (List Char × Json)) : Json

mutual

/-- Decidable equality on `Json` (written by hand: `deriving` does not handle
the nested lists). -/
def jdec : (a b : Json) → Decidable (a = b)
  | .null, .null => isTrue rfl
  | .null, .bool _ => isFalse (fun h => Json.noConfusion h)
  | .null, .num _ => isFalse (fun h => Json.noConfusion h)
  | .null, .str _ => isFalse (fun h => Json.noConfusion h)
  | .null, .arr _ => isFalse (fun h => Json.noConfusion h)
  | .null, .obj _ => isFalse (fun h => Json.noConfusion h)
  | .bool _, .null => isFalse (fun h => Json.noConfusion h)
  | .bool a, .bool b =>
    match decEq a b with
    | isTrue h => isTrue (by rw [h])
    | isFalse h => isFalse (fun e => h (Json.bool.inj e))
  | .bool _, .num _ => isFalse (fun h => Json.noConfusion h)
  | .bool _, .str _ => isFalse (fun h => Json.noConfusion h)
  | .bool _, .arr _ => isFalse (fun h => Json.noConfusion h)
  | .bool _, .obj _ => isFalse (fun h => Json.noConfusion h)
  | .num _, .null => isFalse (fun h => Json.noConfusion h)
  | .num _, .bool _ => isFalse (fun h => Json.noConfusion h)
  | .num a, .num b =>
    match decEq a b with
    | isTrue h => isTrue (by rw [h])
    | isFalse h => isFalse (fun e => h (Json.num.inj e))
  | .num _, .str _ => isFalse (fun h => Json.noConfusion h)
  | .num _, .arr _ => isFalse (fun h => Json.noConfusion h)
  | .num _, .obj _ => isFalse (fun h => Json.noConfusion h)
  | .str _, .null => isFalse (fun h => Json.noConfusion h)
  | .str _, .bool _ => isFalse (fun h => Json.noConfusion h)
  | .str _, .num _ => isFalse (fun h => Json.noConfusion h)
  | .str a, .str b =>
    match decEq a b with
    | isTrue h => isTrue (by rw [h])
    | isFalse h => isFalse (fun e => h (Json.str.inj e))
  | .str _, .arr _ => isFalse (fun h => Json.noConfusion h)
  | .str _, .obj _ => isFalse (fun h => Json.noConfusion h)
  | .arr _, .null => isFalse (fun h => Json.noConfusion h)
  | .arr _, .bool _ => isFalse (fun h => Json.noConfusion h)
  | .arr _, .num _ => isFalse (fun h => Json.noConfusion h)
  | .arr _, .str _ => isFalse (fun h => Json.noConfusion h)
  | .arr xs, .arr ys =>
    match jdecList xs ys with
    | isTrue h => isTrue (by rw [h])
    | isFalse h => isFalse (fun e => h (Json.arr.inj e))
  | .arr _, .obj _ => isFalse (fun h => Json.noConfusion h)
  | .obj _, .null => isFalse (fun h => Json.noConfusion h)
  | .obj _, .bool _ => isFalse (fun h => Json.noConfusion h)
  | .obj _, .num _ => isFalse (fun h => Json.noConfusion h)
  | .obj _, .str _ => isFalse (fun h => Json.noConfusion h)
  | .obj _, .arr _ => isFalse (fun h => Json.noConfusion h)
  | .obj fs, .obj gs =>
    match jdecFields fs gs with
    | isTrue h => isTrue (by rw [h])
    | isFalse h => isFalse (fun e => h (Json.obj.inj e))

/-- Decidable equality on lists of `Json`. -/
def jdecList : (a b : List Json) → Decidable (a = b)
  | [], [] => isTrue rfl
  | [], _ :: _ => isFalse (fun h => List.noConfusion h)
  | _ :: _, [] => isFalse (fun h => List.noConfusion h)
  | x :: xs, y :: ys =>
    match jdec x y, jdecList xs ys with
    | isTrue h1, isTrue h2 => isTrue (by rw [h1, h2])
    | isFalse h1, _ => isFalse (fun e => h1 (List.cons.inj e).1)
    | _, isFalse h2 => isFalse (fun e => h2 (List.cons.inj e).2)

/-- Decidable equality on `Json` object field lists. -/
def jdecFields : (a b : List (List Char × Json)) → Decidable (a = b)
  | [], [] => isTrue rfl
  | [], _ :: _ => isFalse (fun h => List.noConfusion h)
  | _ :: _, [] => isFalse (fun h => List.noConfusion h)
  | (k, v) :: fs, (k2, v2) :: gs =>
    match decEq k k2, jdec v v2, jdecFields fs gs with
    | isTrue h1, isTrue h2, isTrue h3 => isTrue (by rw [h1, h2, h3])
    | isFalse h1, _, _ =>
      isFalse (fun e => h1 (congrArg Prod.fst (List.cons.inj e).1))
    | _, isFalse h2, _ =>
      isFalse (fun e => h2 (congrArg Prod.snd (List.cons.inj e).1))
    | _, _, isFalse h3 => isFalse (fun e => h3 (List.cons.inj e).2)

end

instance : DecidableEq Json := jdec

/-! ## `JSON.parse`: strings -/

/-- Value of one hexadecimal digit. -/
def hexVal (c : Char) : Option Nat :=
  if 48 ≤ c.toNat ∧ c.toNat ≤ 57 then some (c.toNat - 48)
  else if 97 ≤ c.toNat ∧ c.toNat ≤ 102 then some (c.toNat - 87)
  else if 65 ≤ c.toNat ∧ c.toNat ≤ 70 then some (c.toNat - 55)
  else none

/-- Decoding of the single-character JSON escapes. -/
def escDecode (c : Char) : Option Char :=
  if c == '\"' then some '\"'
  else if c == '\\' then some '\\'
  else if c == '/' then some '/'
  else if c == 'b' then some (Char.ofNat 8)
  else if c == 'f' then some (Char.ofNat 12)
  else if c == 'n' then some '\n'
  else if c == 'r' then some '\r'
  else if c == 't' then some '\t'
  else none

mutual

/-- Parse the body of a JSON string after its opening quote; returns the
decoded string and the input remaining after the closing quote. Raw control
characters are rejected, exactly as `JSON.parse` does. (`\uXXXX` escapes are
decoded through `Char.ofNat`; surrogate halves, which JavaScript would keep
as unpaired UTF-16 units, are outside the `Char` type and map to its
default.) -/
def parseStringBody : List Char → Option (List Char × List Char)
  | [] => none
  | c :: rest =>
    if c == '\"' then some ([], rest)
    else if c == '\\' then parseEscape rest
    else if c.toNat < 32 then none
    else (parseStringBody rest).map (fun p => (c :: p.1, p.2))

/-- Decode what follows a backslash inside a JSON string. -/
def parseEscape : List Char → Option (List Char × List Char)
  | 'u' :: h1 :: h2 :: h3 :: h4 :: rest =>
    match hexVal h1, hexVal h2, hexVal h3, hexVal h4 with
    | some a, some b, some c4, some d =>
      (parseStringBody rest).map
        (fun p => (Char.ofNat (a * 4096 + b * 256 + c4 * 16 + d) :: p.1, p.2))
    | _, _, _, _ => none
  | 'u' :: _ => none
  | e :: rest =>
    match escDecode e with
    | some ch => (parseStringBody rest).map (fun p => (ch :: p.1, p.2))
    | none => none
  | [] => none

end

/-! ## `JSON.parse`: numbers

The JSON number grammar `-?(0|[1-9][0-9]*)(\.[0-9]+)?([eE][+-]?[0-9]+)?`,
split into its four components. Each component returns the consumed token
and the remaining input. -/

def pSign : List Char → (List Char × List Char)
  | [] => ([], [])
  | c :: t => if c == '-' then (['-'], t) else ([], c :: t)

def pInt : List Char → Option (List Char × List Char)
  | [] => none
  | c :: t =>
    if c == '0' then some (['0'], t)
    else if isDigit c then
      let s := t.span isDigit
      some (c :: s.1, s.2)
    else none

def pFrac : List Char → Option (List Char × List Char)
  | [] => some ([], [])
  | c :: t =>
    if c == '.' then
      match t.span isDigit with
      | ([], _) => none
      | (ds, r) => some ('.' :: ds, r)
    else some ([], c :: t)

def pExpSign : List Char → (List Char × List Char)
  | [] => ([], [])
  | c :: t =>
    if c == '+' then (['+'], t)
    else if c == '-' then (['-'], t)
    else ([], c :: t)

def pExp : List Char → Option (List Char × List Char)
  | [] => some ([], [])
  | c :: t =>
    if c == 'e' || c == 'E' then
      let p := pExpSign t
      match p.2.span isDigit with
      | ([], _) => none
      | (ds, r) => some (c :: p.1 ++ ds, r)
    else some ([], c :: t)

/-- Maximal-munch parse of one JSON number token. -/
def parseNumber (l : List Char) : Option (List Char × List Char) :=
  match pInt (pSign l).2 with
  | none => none
  | some (ip, l2) =>
    match pFrac l2 with
    | none => none
    | some (fp, l3) =>
      match pExp l3 with
      | none => none
      | some (ep, l4) => some ((pSign l).1 ++ ip ++ fp ++ ep, l4)

/-- A list is a complete, valid JSON number literal iff `parseNumber`
consumes it entirely. -/
def validNum (l : List Char) : Bool :=
  match parseNumber l with
  | some (_, r) => r.isEmpty
  | none => false

/-! ## `JSON.parse`: values

Fuel-indexed recursive-descent parser for the full strict JSON grammar, as
implemented by JavaScript's `JSON.parse`. `parseJSON` supplies fuel
proportional to the input length, which dominates the recursion depth. -/

/-- Drop leading JSON whitespace. -/
def skipWS (l : List Char) : List Char := l.dropWhile jsonWS

/-- JavaScript property-definition order for object literals built by
`JSON.parse`: a repeated key keeps its first position but takes the new
value. -/
def insertKey (fs : List (List Char × Json)) (k : List Char) (v : Json) :
    List (List Char × Json) :=
  match fs with
  | [] => [(k, v)]
  | (k2, v2) :: t => if k2 = k then (k, v) :: t else (k2, v2) :: insertKey t k v

/-- Resolve duplicate keys of a parsed member list the way JavaScript
objects do. -/
def dedupJS (fs : List (List Char × Json)) : List (List Char × Json) :=
  fs.foldl (fun acc kv => insertKey acc kv.1 kv.2) []

mutual

/-- Parse one JSON value (leading whitespace allowed), returning the value
and the remaining input. -/
def parseValue : Nat → List Char → Option (Json × List Char)
  | 0, _ => none
  | fuel + 1, l =>
    match skipWS l with
    | [] => none
    | c :: rest =>
      if c == 'n' then
        match rest with
        | 'u' :: 'l' :: 'l' :: r => some (.null, r)
        | _ => none
      else if c == 't' then
        match rest with
        | 'r' :: 'u' :: 'e' :: r => some (.bool true, r)
        | _ => none
      else if c == 'f' then
        match rest with
        | 'a' :: 'l' :: 's' :: 'e' :: r => some (.bool false, r)
        | _ => none
      else if c == '\"' then
        (parseStringBody rest).map (fun p => (.str p.1, p.2))
      else if c == '{' then
        (parseFields fuel (skipWS rest)).map (fun p => (.obj (dedupJS p.1), p.2))
      else if c == '[' then
        (parseItems fuel (skipWS rest)).map (fun p => (.arr p.1, p.2))
      else
        (parseNumber (c :: rest)).map (fun p => (.num p.1, p.2))

/-- After `[` (whitespace skipped): empty array or element list. -/
def parseItems : Nat → List Char → Option (List Json × List Char)
  | 0, _ => none
  | fuel + 1, l =>
    match l with
    | [] => none
    | c :: t => if c == ']' then some ([], t) else parseElems fuel (c :: t)

/-- One or more comma-separated array elements, then `]`. -/
def parseElems : Nat → List Char → Option (List Json × List Char)
  | 0, _ => none
  | fuel + 1, l =>
    match parseValue fuel l with
    | none => none
    | some (v, r) =>
      match skipWS r with
      | [] => none
      | c :: r2 =>
        if c == ',' then (parseElems fuel r2).map (fun p => (v :: p.1, p.2))
        else if c == ']' then some ([v], r2)
        else none

/-- After `{` (whitespace skipped): empty object or member list. -/
def parseFields : Nat → List Char → Option (List (List Char × Json) × List Char)
  | 0, _ => none
  | fuel + 1, l =>
    match l with
    | [] => none
    | c :: t => if c == '}' then some ([], t) else parseMembers fuel (c :: t)

/-- One or more comma-separated `"key": value` members, then `}`; the raw
member list is returned in textual order (duplicates included — `parseValue`
applies `dedupJS`). -/
def parseMembers : Nat → List Char → Option (List (List Char × Json) × List Char)
  | 0, _ => none
  | fuel + 1, l =>
    match l with
    | [] => none
    | c :: rest =>
      if c == '\"' then
        match parseStringBody rest with
        | none => none
        | some (k, r1) =>
          match skipWS r1 with
          | [] => none
          | c1 :: r2 =>
            if c1 == ':' then
              match parseValue fuel r2 with
              | none => none
              | some (v, r3) =>
                match skipWS r3 with
                | [] => none
                | c2 :: r4 =>
                  if c2 == ',' then
                    (parseMembers fuel (skipWS r4)).map (fun p => ((k, v) :: p.1, p.2))
                  else if c2 == '}' then some ([(k, v)], r4)
                  else none
            else none
      else none

end

/-- `JSON.parse`: succeeds iff the whole input is one JSON value surrounded
only by whitespace. The fuel `3 * length + 3` strictly dominates the
recursion depth of any parse. -/
def parseJSON (l : List Char) : Option Json :=
  match parseValue (3 * l.length + 3) l with
  | some (j, rest) => if (skipWS rest).isEmpty then some j else none
  | none => none

/-! ## `JSON.stringify`-style serialization

Used to express the round-trip claims. Emits exactly what `JSON.stringify`
emits on the modelled values: strings with the standard escapes (control
characters below U+0020 as `\b \t \n \f \r` or `\u00xx`), numbers as their
literal token, object members as `"key":value` with no added whitespace. -/

/-- Lowercase hexadecimal digit for `n < 16`. -/
def hexDigit (n : Nat) : Char :=
  if n < 10 then Char.ofNat (48 + n) else Char.ofNat (87 + n)

/-- The escape `JSON.stringify` applies to a single character. -/
def escChar (c : Char) : List Char :=
  if c == '\"' then '\\' :: ['\"']
  else if c == '\\' then '\\' :: ['\\']
  else if c.toNat == 8 then '\\' :: ['b']
  else if c.toNat == 9 then '\\' :: ['t']
  else if c.toNat == 10 then '\\' :: ['n']
  else if c.toNat == 12 then '\\' :: ['f']
  else if c.toNat == 13 then '\\' :: ['r']
  else if c.toNat < 32 then
    '\\' :: 'u' :: '0' :: '0' :: hexDigit (c.toNat / 16) :: [hexDigit (c.toNat % 16)]
  else [c]

/-- String-body escaping of `JSON.stringify`. -/
def escapeString : List Char → List Char
  | [] => []
  | c :: t => escChar c ++ escapeString t

mutual

/-- `JSON.stringify` of a modelled value. -/
def serialize : Json → List Char
  | .null => 'n' :: 'u' :: 'l' :: ['l']
  | .bool true => 't' :: 'r' :: 'u' :: ['e']
  | .bool false => 'f' :: 'a' :: 'l' :: 's' :: ['e']
  | .num lit => lit
  | .str s => '\"' :: (escapeString s ++ ['\"'])
  | .arr xs => '[' :: (serializeElems xs ++ [']'])
  | .obj fs => '{' :: (serializeFields fs ++ ['}'])

/-- Comma-separated serialization of array elements. -/
def serializeElems : List Json → List Char
  | [] => []
  | [x] => serialize x
  | x :: xs => serialize x ++ ',' :: serializeElems xs

/-- Comma-separated serialization of object members. -/
def serializeFields : List (List Char × Json) → List Char
  | [] => []
  | [(k, v)] => '\"' :: (escapeString k ++ '\"' :: ':' :: serialize v)
  | (k, v) :: fs =>
    '\"' :: (escapeString k ++ '\"' :: ':' :: serialize v) ++ ',' :: serializeFields fs

end

/-- Key lists without duplicates. -/
def nodupKeys : List (List Char) → Bool
  | [] => true
  | k :: ks => !(ks.contains k) && nodupKeys ks

mutual

/-- Well-formedness of a modelled JSON value as a JavaScript value:
number nodes carry a complete valid numeral token, and object nodes have
no duplicate keys (JavaScript objects cannot). -/
def Json.wf : Json → Bool
  | .null => true
  | .bool _ => true
  | .num lit => validNum lit
  | .str _ => true
  | .arr xs => Json.wfList xs
  | .obj fs => Json.wfFields fs && nodupKeys (fs.map Prod.fst)

/-- All values of a list are well-formed. -/
def Json.wfList : List Json → Bool
  | [] => true
  | x :: xs => x.wf && Json.wfList xs

/-- All values of a field list are well-formed. -/
def Json.wfFields : List (List Char × Json) → Bool
  | [] => true
  | (_, v) :: fs => v.wf && Json.wfFields fs

end

/-! ## The response-recovery strategies of `generateWorkout`

Strategy 1 (candidate selection): the regex
`/```(?:json)?\s*([\s\S]*?)\s*```/` applied by `text.match`; on a match the
first capture group is the candidate, otherwise the whole text is
(`|| [null, text]`). The model below reproduces the leftmost-match,
greedy-`json`-tag, greedy-whitespace, lazy-capture semantics of that
regex. -/

/-- Does the list start with three backticks? -/
def startsTriple (l : List Char) : Bool :=
  match l with
  | a :: b :: c :: _ => a == btick && b == btick && c == btick
  | _ => false

/-- Index of the first occurrence of three consecutive backticks. -/
def findTripleIdx : List Char → Option Nat
  | [] => none
  | c :: rest =>
    if startsTriple (c :: rest) then some 0
    else (findTripleIdx rest).map (· + 1)

/-- Strip an optional literal `json` tag, as `(?:json)?` does. -/
def stripJsonTag (l : List Char) : List Char :=
  match l with
  | 'j' :: 's' :: 'o' :: 'n' :: t => t
  | _ => l

/-- Remove trailing regex whitespace (the backtracking of the greedy `\s*`
that precedes the closing fence). -/
def dropTrailingWS (l : List Char) : List Char :=
  (l.reverse.dropWhile regexWS).reverse

/-- Complete a fence match starting right after an opening ```:
consume the optional `json` tag and greedy whitespace, then capture lazily
up to the next ``` (minus the whitespace run before it). `none` when no
closing fence exists. -/
def tryComplete (r0 : List Char) : Option (List Char) :=
  let r2 := (stripJsonTag r0).dropWhile regexWS
  match findTripleIdx r2 with
  | none => none
  | some m => some (dropTrailingWS (r2.take m))

/-- Capture group of the leftmost match of the fence regex, scanning match
start positions left to right exactly as the regex engine does. -/
def fenceCapture : List Char → Option (List Char)
  | [] => none
  | c :: rest =>
    if startsTriple (c :: rest) then
      match tryComplete (rest.drop 2) with
      | some cap => some cap
      | none => fenceCapture rest
    else fenceCapture rest

/-- `jsonText`: the fenced block's interior when the regex matches, the
whole text otherwise. -/
def extractCandidate (text : List Char) : List Char :=
  (fenceCapture text).getD text

/-- The sanitization `.replace(/[“”]/g, '"').replace(/[‘’]/g, "'")`. -/
def cleanQuotes (l : List Char) : List Char :=
  l.map (fun c =>
    if c == ldq || c == rdq then '\"'
    else if c == lsq || c == rsq then apos
    else c)

/-- The span matched by `/{[\s\S]*}/` on the text: from the first `{`
through the last `}`, when the last `}` comes after the first `{`;
`none` otherwise (the regex fails to match). -/
def braceSpan (l : List Char) : Option (List Char) :=
  match l.findIdx? (· == '{'), l.reverse.findIdx? (· == '}') with
  | some i, some k =>
    let j := l.length - 1 - k
    if i < j then some ((l.take (j + 1)).drop i) else none
  | _, _ => none

/-- Recovery strategy 1: strict parse of the candidate text. -/
def strat1 (text : List Char) : Option Json :=
  parseJSON (extractCandidate text)

/-- Recovery strategy 2: strict parse of the candidate after typographic
quote replacement. -/
def strat2 (text : List Char) : Option Json :=
  parseJSON (cleanQuotes (extractCandidate text))

/-- Recovery strategy 3: strict parse of the `{`…`}` span of the original
raw text. -/
def strat3 (text : List Char) : Option Json :=
  (braceSpan text).bind parseJSON

/-- The response-recovery parser of `generateWorkout` (the nested
`try`/`catch` blocks around `JSON.parse`, lines 98–131): candidate
extraction, strict parse, quote-sanitized parse, then the brace-span parse
of the original text. -/
def recover (text : List Char) : Option Json :=
  let candidate := extractCandidate text
  match parseJSON candidate with
  | some j => some j
  | none =>
    match parseJSON (cleanQuotes candidate) with
    | some j => some j
    | none =>
      match braceSpan text with
      | some span => parseJSON span
      | none => none

/-! ## JavaScript request values

`req.body` is the JSON object produced by the `express.json()` middleware
(under its default strict mode a request body is a JSON object or array, so
the destructuring on line 29 never throws; we model object bodies, the only
shape the claims concern). Numbers are modelled as integers (floats and NaN
are out of scope for every claim). -/

inductive JSVal where
  | undefined : JSVal
  | null : JSVal
  | bool (b : Bool) : JSVal
  | num (n : Int) : JSVal
  | str (s : List Char) : JSVal
  | arr (elems : List JSVal) : JSVal
  | obj (fields : List (List Char × JSVal)) : JSVal

/-- JavaScript truthiness. -/
def truthy : JSVal → Bool
  | .undefined => false
  | .null => false
  | .bool b => b
  | .num n => n != 0
  | .str s => !s.isEmpty
  | .arr _ => true
  | .obj _ => true

/-- Property lookup on an object's field list; `undefined` when absent. -/
def jsLookup (fs : List (List Char × JSVal)) (k : List Char) : JSVal :=
  match fs.find? (fun p => p.1 == k) with
  | some p => p.2
  | none => .undefined

/-- The value of `v.length`. Reading `.length` on a number or boolean gives
`undefined`; on `null`/`undefined` it would throw, but the short-circuit
`!availableDays ||` on line 31 guarantees `.length` is only read on truthy
values. -/
def jsLengthProp : JSVal → JSVal
  | .arr xs => .num xs.length
  | .str s => .num s.length
  | .obj fs => jsLookup fs ("length".data)
  | _ => .undefined

/-- The strict comparison `v.length === 0`. -/
def lenIsZero (v : JSVal) : Bool :=
  match jsLengthProp v with
  | .num 0 => true
  | _ => false

/-- The validation condition of line 31:
`!name || !age || !position || !level || !improvement || !availableDays ||
availableDays.length === 0`. -/
def missingFields (body : List (List Char × JSVal)) : Bool :=
  !truthy (jsLookup body ("name".data)) ||
  !truthy (jsLookup body ("age".data)) ||
  !truthy (jsLookup body ("position".data)) ||
  !truthy (jsLookup body ("level".data)) ||
  !truthy (jsLookup body ("improvement".data)) ||
  !truthy (jsLookup body ("availableDays".data)) ||
  lenIsZero (jsLookup body ("availableDays".data))

mutual

/-- JavaScript string conversion as performed by template-literal
interpolation (`String(v)`): integers in decimal, arrays joined with commas
(`null`/`undefined` elements render empty), plain objects as
`[object Object]`. -/
def jsToString : JSVal → List Char
  | .undefined => "undefined".data
  | .null => "null".data
  | .bool true => "true".data
  | .bool false => "false".data
  | .num n => (toString n).data
  | .str s => s
  | .arr xs => jsToStringElems xs
  | .obj _ => "[object Object]".data

/-- Comma-joined rendering of an array's elements. -/
def jsToStringElems : List JSVal → List Char
  | [] => []
  | [.undefined] => []
  | [.null] => []
  | [x] => jsToString x
  | .undefined :: xs => ',' :: jsToStringElems xs
  | .null :: xs => ',' :: jsToStringElems xs
  | x :: xs => jsToString x ++ ',' :: jsToStringElems xs

end

/-- `Array.prototype.join(sep)` on a list of already-rendered strings. -/
def joinSep (sep : List Char) : List (List Char) → List Char
  | [] => []
  | [x] => x
  | x :: xs => x ++ sep ++ joinSep sep xs

/-- V8's message for a property read on `null`/`undefined`. -/
def readErrMsg (kind prop : List Char) : List Char :=
  ("Cannot read properties of ".data) ++ kind ++ (" (reading ".data) ++
  apos :: (prop ++ apos :: (")".data))

/-- Property read `v[k]` that models the TypeError on `null`/`undefined`. -/
def jsGetPropE (k : List Char) (v : JSVal) : Except (List Char) JSVal :=
  match v with
  | .undefined => .error (readErrMsg ("undefined".data) k)
  | .null => .error (readErrMsg ("null".data) k)
  | .obj fs => .ok (jsLookup fs k)
  | .arr xs => .ok (if k == ("length".data) then .num xs.length else .undefined)
  | .str s => .ok (if k == ("length".data) then .num s.length else .undefined)
  | _ => .ok .undefined

/-- `day.charAt(0).toUpperCase() + day.slice(1)` (ASCII case model). -/
def capitalizeJS : List Char → List Char
  | [] => []
  | c :: t => c.toUpper :: t

/-- The chain `v.charAt(0).toUpperCase() + v.slice(1)` on the value of
`day.day`, with its failure modes on non-strings. -/
def charAtCapSlice (v : JSVal) : Except (List Char) (List Char) :=
  match v with
  | .str s => .ok (capitalizeJS s)
  | .undefined => .error (readErrMsg ("undefined".data) ("charAt".data))
  | .null => .error (readErrMsg ("null".data) ("charAt".data))
  | _ => .error ("day.day.charAt is not a function".data)

/-- `v.join(', ')` on the value of `day.timeOfDay`, with its failure modes
on non-arrays. -/
def joinTimeOfDay (v : JSVal) : Except (List Char) (List Char) :=
  match v with
  | .arr xs =>
    .ok (joinSep (", ".data)
      (xs.map (fun x =>
        match x with
        | .undefined => []
        | .null => []
        | w => jsToString w)))
  | .undefined => .error (readErrMsg ("undefined".data) ("join".data))
  | .null => .error (readErrMsg ("null".data) ("join".data))
  | _ => .error ("day.timeOfDay.join is not a function".data)

/-- Line 53: render one entry of `availableDays`. -/
def renderDayJS (d : JSVal) : Except (List Char) (List Char) := do
  let dayV ← jsGetPropE ("day".data) d
  let cap ← charAtCapSlice dayV
  let hoursV ← jsGetPropE ("hours".data) d
  let todV ← jsGetPropE ("timeOfDay".data) d
  let joined ← joinTimeOfDay todV
  .ok (("- ".data) ++ cap ++ (": ".data) ++ jsToString hoursV ++
    (" hours, Time: ".data) ++ joined)

/-! ## The prompt template (lines 43–85) -/

/-- The part of the template literal before the `availableDays` block. -/
def promptHead (name age position level improvement : List Char) : List Char :=
  ("\n      Create a detailed basketball workout plan for a player with the following profile:\n      \n      Name: ".data) ++
  name ++ ("\n      Age: ".data) ++ age ++ ("\n      Position: ".data) ++
  position ++ ("\n      Level: ".data) ++ level ++
  ("\n      Areas for improvement: ".data) ++ improvement ++
  ("\n      \n      Available days for training:\n      ".data)

/-- The part of the template literal after the `availableDays` block (the
name, age, position and level appear a second time inside the JSON-schema
part). -/
def promptTail (name age position level : List Char) : List Char :=
  ("\n      \n      For each day, create specific exercises with durations and descriptions. Describe the exercises in detail, including the equipment needed, the specific movements, and the target muscle groups.\n      Specify each workout separately with amount of repetitions and sets.\n      Return your response as a properly formatted JSON object with the following structure:\n      \x7b\n        \"name\": \"".data) ++
  name ++ ("\",\n        \"age\": \"".data) ++ age ++
  ("\",\n        \"position\": \"".data) ++ position ++
  ("\",\n        \"level\": \"".data) ++ level ++
  ("\",\n        \"focusAreas\": \"Brief summary of focus areas based on their improvement needs\",\n        \"workoutSchedule\": [\n          \x7b\n            \"day\": \"day name\",\n            \"hours\": number of hours,\n            \"timeOfDay\": [\"Morning\", \"Afternoon\", \"Evening\"],\n            \"exercises\": [\n              \x7b\n                \"name\": \"Exercise Name\",\n                \"duration\": \"Duration in minutes\",\n                \"description\": \"Detailed description of the exercise\"\n              \x7d\n              // more exercises...\n            ]\n          \x7d\n          // more days...\n        ]\n      \x7d\n      \n      IMPORTANT: Ensure the response is a valid JSON object. Use standard JSON format without any markdown or code blocks.\n      Make the exercises specific to basketball skills and appropriate for their position, level, and improvement areas.\n      Keep the response concise and optimized for performance.\n    ".data)

/-- The template literal of lines 43–85: head, rendered `availableDays`
block, tail. -/
def promptOf (name age position level improvement daysBlock : List Char) :
    List Char :=
  promptHead name age position level improvement ++ daysBlock ++
  promptTail name age position level

/-- Prompt construction on the raw request values: iterates
`availableDays.map(...)` and so throws (models the `TypeError`) when
`availableDays` is not an array, or when an entry lacks usable fields. -/
def buildPromptJS (name age position level improvement days : JSVal) :
    Except (List Char) (List Char) :=
  match days with
  | .arr xs =>
    match xs.mapM renderDayJS with
    | .ok lines =>
      .ok (promptOf (jsToString name) (jsToString age) (jsToString position)
        (jsToString level) (jsToString improvement) (joinSep ("\n".data) lines))
    | .error e => .error e
  | _ => .error ("availableDays.map is not a function".data)

/-! ## Typed prompt builder (the validated `TrainingProfile` of the spec) -/

structure AvailableDay where
  day : List Char
  hours : Nat
  timeOfDay : List (List Char)
deriving DecidableEq

structure TrainingProfile where
  name : List Char
  age : List Char
  position : List Char
  level : List Char
  improvement : List Char
  availableDays : List AvailableDay
deriving DecidableEq

/-- Line 53 on a typed `DaySlot`:
`- Day: h hours, Time: a, b` with the day name capitalized. -/
def renderDay (d : AvailableDay) : List Char :=
  ("- ".data) ++ capitalizeJS d.day ++ (": ".data) ++ (Nat.repr d.hours).data ++
  (" hours, Time: ".data) ++ joinSep (", ".data) d.timeOfDay

/-- The Prompt Builder on a validated profile. -/
def prompt (p : TrainingProfile) : List Char :=
  promptOf p.name p.age p.position p.level p.improvement
    (joinSep ("\n".data) (p.availableDays.map renderDay))

/-! ## The handler -/

/-- `API_TIMEOUT` (line 18). -/
def API_TIMEOUT : Nat := 50000

/-- Outcome of `model.generateContent(prompt)` as an abstract behavior:
settle time in milliseconds plus fulfilled text or rejection, or a promise
that never settles. -/
inductive ModelBehavior where
  | resolves (t : Nat) (text : List Char)
  | rejects (t : Nat) (msg : List Char)
  | hangs

/-- The handler's observable outcome: HTTP status, JSON response body,
whether the external model was invoked, and the time at which the response
was produced (discrete-time model of the promise race). -/
structure HandlerResult where
  status : Nat
  body : Json
  modelCalled : Bool
  time : Nat
deriving DecidableEq

/-- Response body of line 32. -/
def missingFieldsBody : Json :=
  .obj [(("error".data), .str ("Missing required fields".data))]

/-- Response body of line 135. -/
def timeoutBody : Json :=
  .obj [(("error".data), .str ("Request timed out".data)),
        (("details".data), .str ("The workout plan generation is taking too long. Please try again.".data))]

/-- Response body of line 128. -/
def formatErrorBody : Json :=
  .obj [(("error".data), .str ("Failed to generate a valid workout plan".data)),
        (("details".data), .str ("The AI generated an invalid response format".data))]

/-- Response body of line 143 (the outer catch). -/
def internalErrorBody (msg : List Char) : Json :=
  .obj [(("error".data), .str ("Failed to generate workout plan".data)),
        (("details".data), .str msg)]

/-- Prompt construction applied to the destructured request fields. -/
def bodyPrompt (body : List (List Char × JSVal)) : Except (List Char) (List Char) :=
  buildPromptJS (jsLookup body ("name".data)) (jsLookup body ("age".data))
    (jsLookup body ("position".data)) (jsLookup body ("level".data))
    (jsLookup body ("improvement".data)) (jsLookup body ("availableDays".data))

/-- The `generateWorkout` handler: validation (line 31), prompt
construction (43–85, inside the outer try), then the race of
`model.generateContent` against `createTimeout(API_TIMEOUT)` (89–92).
A rejection of the race — the timer firing, but equally a rejection of the
model call itself — lands in the inner `catch (timeoutError)` (133) and
yields 504. Successful text goes through `recover`; its failure yields the
500 format error (128); exceptions before the race (e.g. from
`availableDays.map`) land in the outer catch (140) and yield the 500
internal error carrying the thrown message. -/
def generateWorkout (body : List (List Char × JSVal)) (model : ModelBehavior) :
    HandlerResult :=
  if missingFields body then
    ⟨400, missingFieldsBody, false, 0⟩
  else
    match bodyPrompt body with
    | .error msg => ⟨500, internalErrorBody msg, false, 0⟩
    | .ok _ =>
      match model with
      | .resolves t text =>
        if t < API_TIMEOUT then
          match recover text with
          | some j => ⟨200, j, true, t⟩
          | none => ⟨500, formatErrorBody, true, t⟩
        else ⟨504, timeoutBody, true, API_TIMEOUT⟩
      | .rejects t _ => ⟨504, timeoutBody, true, min t API_TIMEOUT⟩
      | .hangs => ⟨504, timeoutBody, true, API_TIMEOUT⟩

def testBody : List (List Char × JSVal) :=
  [(("name".data), .str ("Jo".data)),
   (("age".data), .num 16),
   (("position".data), .str ("Guard".data)),
   (("level".data), .str ("Intermediate".data)),
   (("improvement".data), .str ("ball handling".data)),
   (("availableDays".data),
    .arr [.obj [(("day".data), .str ("monday".data)),
                (("hours".data), .num 1),
                (("timeOfDay".data), .arr [.str ("Evening".data)])]])]

/-- The payload of an `Except.ok`, with the error message as fallback. -/
def okValue : Except (List Char) (List Char) → List Char
  | .ok p => p
  | .error e => e

/-- Is a parsed JSON value an object? -/
def Json.isObj : Json → Bool
  | .obj _ => true
  | _ => false

/-- Is a request value an array? -/
def JSVal.isArr : JSVal → Bool
  | .arr _ => true
  | _ => false

/-- A JSON object written with typographic single quotes U+2018/U+2019 as
its string delimiters (intended object: one field `a` with value `"b"`). -/
def curlySingleText : List Char :=
  '\x7b' :: lsq :: 'a' :: rsq :: ':' :: ' ' :: lsq :: 'b' :: rsq :: ['\x7d']

/-- The claim's fenced wrapping: "```json\n" ++ s ++ "\n```". -/
def fenceWrap (s : List Char) : List Char :=
  btick :: btick :: btick :: 'j' :: 's' :: 'o' :: 'n' :: '\n' ::
    (s ++ '\n' :: btick :: btick :: [btick])

/-- The object `{"a":"”}```"}`: well-formed, but its serialization contains
a triple backtick inside the string value. -/
def trickyObj : Json :=
  .obj [(['a'], .str (rdq :: '\x7d' :: btick :: btick :: [btick]))]

/-- What may legally follow a serialized value inside a JSON document:
nothing, or a comma / closing brace / closing bracket. -/
def delimOk : List Char → Prop
  | [] => True
  | c :: _ => c = ',' ∨ c = '}' ∨ c = ']'

/-- Characters that could extend a number token never follow a value. -/
def numDelim : List Char → Prop
  | [] => True
  | c :: _ =>
    isDigit c = false ∧ c ≠ '.' ∧ c ≠ 'e' ∧ c ≠ 'E' ∧ c ≠ '+' ∧ c ≠ '-'

/-- Replace every straight double quote by the typographic U+201D. -/
def toCurly (l : List Char) : List Char :=
  l.map (fun c => if c == '\"' then rdq else c)

/-! ## Theorems -/

/-- C3: the recovery parser is exactly the first-success-wins pipeline of
the three strategies: candidate extraction plus strict parse, then the
typographic-quote-sanitized re-parse of the same candidate, then the strict
parse of the first-`{`-to-last-`}` span of the original raw text. -/
theorem recover_strategy_order (text : List Char) :
    recover text =
      ((strat1 text).orElse (fun _ => (strat2 text).orElse (fun _ => strat3 text))) := by
  simp only [recover, strat1, strat2, strat3]
  cases h1 : parseJSON (extractCandidate text) with
  | some j => simp [Option.orElse]
  | none =>
    cases h2 : parseJSON (cleanQuotes (extractCandidate text)) with
    | some j => simp [Option.orElse]
    | none =>
      cases h3 : braceSpan text with
      | some s => simp [Option.orElse]
      | none => simp [Option.orElse]

/-- C1: a request body in which any of the five profile fields is absent or
falsy, or `availableDays` is absent/falsy or has `length === 0`, is answered
with 400 `Missing required fields` whatever the model would do, and the
model is never invoked. -/
theorem generateWorkout_missing_400 (body : List (List Char × JSVal))
    (h : truthy (jsLookup body ("name".data)) = false ∨
         truthy (jsLookup body ("age".data)) = false ∨
         truthy (jsLookup body ("position".data)) = false ∨
         truthy (jsLookup body ("level".data)) = false ∨
         truthy (jsLookup body ("improvement".data)) = false ∨
         truthy (jsLookup body ("availableDays".data)) = false ∨
         lenIsZero (jsLookup body ("availableDays".data)) = true) :
    ∀ m : ModelBehavior, generateWorkout body m = ⟨400, missingFieldsBody, false, 0⟩ := by
  intro m
  have hmf : missingFields body = true := by
    unfold missingFields
    rcases h with h | h | h | h | h | h | h <;> simp [h]
  unfold generateWorkout
  rw [hmf]
  simp

/-- C1 witness: the empty body is missing every field. -/
theorem generateWorkout_missing_400_witness :
    generateWorkout [] .hangs = ⟨400, missingFieldsBody, false, 0⟩ :=
  generateWorkout_missing_400 [] (Or.inl (by decide)) .hangs

/-- C2 (amended): on a valid input, a rejection of the model client is
caught by the inner `catch (timeoutError)` around the race, so the handler
answers 504 with the timeout body — not 500 — whatever the rejection's
message and time. -/
theorem generateWorkout_clientError_504 (body : List (List Char × JSVal))
    (P : List Char) (hmf : missingFields body = false)
    (hp : bodyPrompt body = .ok P) (t : Nat) (msg : List Char) :
    generateWorkout body (.rejects t msg) = ⟨504, timeoutBody, true, min t API_TIMEOUT⟩ := by
  unfold generateWorkout
  rw [hmf, hp]
  simp

/-- C2 witness: the spec's example profile with a client rejecting after
10 ms with a network-style error. -/
theorem generateWorkout_clientError_504_witness :
    generateWorkout testBody (.rejects 10 ("ECONNREFUSED".data)) =
      ⟨504, timeoutBody, true, min 10 API_TIMEOUT⟩ :=
  generateWorkout_clientError_504 testBody (okValue (bodyPrompt testBody))
    (by decide) (by rfl) 10 ("ECONNREFUSED".data)

/-- C2 counterexample: on the example profile, a client-level failure
(`ECONNREFUSED` rejection at 10 ms) yields 504 with the timeout body; it is
not the claimed 500 with the internal-error body carrying the message. -/
theorem generateWorkout_clientError_not_500 :
    generateWorkout testBody (.rejects 10 ("ECONNREFUSED".data)) =
      ⟨504, timeoutBody, true, 10⟩ ∧
    ¬((generateWorkout testBody (.rejects 10 ("ECONNREFUSED".data))).status = 500 ∧
      (generateWorkout testBody (.rejects 10 ("ECONNREFUSED".data))).body =
        internalErrorBody ("ECONNREFUSED".data)) := by
  constructor
  · decide
  · decide

/-- C8: on a valid input, when the model call never settles the 50,000 ms
timer wins the race and the handler answers 504 with exactly the timeout
body, at time `API_TIMEOUT = 50000` — i.e. within 50000 ms plus scheduling,
not later. -/
theorem generateWorkout_hangs_504 (body : List (List Char × JSVal))
    (P : List Char) (hmf : missingFields body = false)
    (hp : bodyPrompt body = .ok P) :
    generateWorkout body .hangs = ⟨504, timeoutBody, true, API_TIMEOUT⟩ ∧
    (generateWorkout body .hangs).time ≤ 50000 := by
  unfold generateWorkout
  rw [hmf, hp]
  simp [API_TIMEOUT]

/-- C8 witness. -/
theorem generateWorkout_hangs_504_witness :
    generateWorkout testBody .hangs = ⟨504, timeoutBody, true, API_TIMEOUT⟩ ∧
    (generateWorkout testBody .hangs).time ≤ 50000 :=
  generateWorkout_hangs_504 testBody (okValue (bodyPrompt testBody))
    (by decide) (by rfl)

/-- C5 (amended): on a valid input, whenever any recovery strategy
succeeds, its parsed value is returned unmodified as the 200 body — with no
schema validation and, in particular, no object-ness check on the value
produced by strategies 1 and 2. -/
theorem generateWorkout_parsed_200 (body : List (List Char × JSVal))
    (P : List Char) (hmf : missingFields body = false)
    (hp : bodyPrompt body = .ok P) (t : Nat) (ht : t < API_TIMEOUT)
    (text : List Char) (j : Json) (hr : recover text = some j) :
    generateWorkout body (.resolves t text) = ⟨200, j, true, t⟩ := by
  unfold generateWorkout
  rw [hmf, hp]
  simp [ht, hr]

/-- C5 witness. -/
theorem generateWorkout_parsed_200_witness :
    generateWorkout testBody (.resolves 10 ("42".data)) =
      ⟨200, .num ('4' :: ['2']), true, 10⟩ :=
  generateWorkout_parsed_200 testBody (okValue (bodyPrompt testBody))
    (by decide) (by rfl) 10 (by decide) ("42".data) (.num ('4' :: ['2'])) (by decide)

/-- C5 counterexample: the model text `42` parses (strategy 1) to the
non-object JSON value `42`, and the handler returns it as a 200 success —
the claimed looks-like-an-object condition is not enforced anywhere. -/
theorem generateWorkout_nonObject_200 :
    generateWorkout testBody (.resolves 10 ("42".data)) =
      ⟨200, .num ('4' :: ['2']), true, 10⟩ ∧
    (Json.num ('4' :: ['2'])).isObj = false := by
  constructor
  · decide
  · decide

/-- C7: on a valid input, when all three recovery strategies fail the
handler answers 500 with exactly the format-error body (no exception
escapes: the model is total). -/
theorem generateWorkout_parseFail_500 (body : List (List Char × JSVal))
    (P : List Char) (hmf : missingFields body = false)
    (hp : bodyPrompt body = .ok P) (t : Nat) (ht : t < API_TIMEOUT)
    (text : List Char) (h1 : strat1 text = none) (h2 : strat2 text = none)
    (h3 : strat3 text = none) :
    generateWorkout body (.resolves t text) = ⟨500, formatErrorBody, true, t⟩ := by
  have hr : recover text = none := by
    simp only [recover]
    rw [show parseJSON (extractCandidate text) = none from by simpa [strat1] using h1]
    rw [show parseJSON (cleanQuotes (extractCandidate text)) = none from by
      simpa [strat2] using h2]
    cases hbs : braceSpan text with
    | none => rfl
    | some s =>
      have h3' := h3
      simp only [strat3, hbs, Option.some_bind] at h3'
      simp [h3']
  unfold generateWorkout
  rw [hmf, hp]
  simp [ht, hr]

/-- C7 witness: `hello` contains no parseable JSON by any strategy. -/
theorem generateWorkout_parseFail_500_witness :
    generateWorkout testBody (.resolves 10 ("hello".data)) =
      ⟨500, formatErrorBody, true, 10⟩ :=
  generateWorkout_parseFail_500 testBody (okValue (bodyPrompt testBody))
    (by decide) (by rfl) 10 (by decide) ("hello".data)
    (by decide) (by decide) (by decide)

/-- C10: a body whose five profile fields are truthy and whose
`availableDays` is truthy with `length !== 0` but is not an array passes
validation; `availableDays.map` then throws before the model is invoked,
the outer catch answers 500 with the thrown message — never 400. -/
theorem generateWorkout_nonArrayDays_500 (body : List (List Char × JSVal))
    (h1 : truthy (jsLookup body ("name".data)) = true)
    (h2 : truthy (jsLookup body ("age".data)) = true)
    (h3 : truthy (jsLookup body ("position".data)) = true)
    (h4 : truthy (jsLookup body ("level".data)) = true)
    (h5 : truthy (jsLookup body ("improvement".data)) = true)
    (h6 : truthy (jsLookup body ("availableDays".data)) = true)
    (h7 : lenIsZero (jsLookup body ("availableDays".data)) = false)
    (h8 : (jsLookup body ("availableDays".data)).isArr = false) :
    ∀ m : ModelBehavior,
      generateWorkout body m =
        ⟨500, internalErrorBody ("availableDays.map is not a function".data), false, 0⟩ ∧
      (generateWorkout body m).status ≠ 400 := by
  intro m
  have hmf : missingFields body = false := by
    unfold missingFields
    simp [h1, h2, h3, h4, h5, h6, h7]
  have hbp : bodyPrompt body =
      .error ("availableDays.map is not a function".data) := by
    unfold bodyPrompt buildPromptJS
    cases hd : jsLookup body ("availableDays".data) <;>
      simp_all [truthy, JSVal.isArr]
  constructor
  · unfold generateWorkout
    rw [hmf, hbp]
    simp
  · unfold generateWorkout
    rw [hmf, hbp]
    simp

/-- C10 witness: `availableDays` as a plain object with no `length`. -/
theorem generateWorkout_nonArrayDays_500_witness :
    generateWorkout ((testBody.take 5) ++ [(("availableDays".data), .obj [])]) .hangs =
      ⟨500, internalErrorBody ("availableDays.map is not a function".data), false, 0⟩ ∧
    (generateWorkout ((testBody.take 5) ++ [(("availableDays".data), .obj [])]) .hangs).status ≠ 400 :=
  generateWorkout_nonArrayDays_500 ((testBody.take 5) ++ [(("availableDays".data), .obj [])])
    (by decide) (by decide) (by decide) (by decide) (by decide) (by decide)
    (by decide) (by decide) .hangs

/-- A member of a string list is an infix of its `joinSep` rendering. -/
theorem mem_infix_joinSep (sep x : List Char) (l : List (List Char)) (h : x ∈ l) :
    x <:+: joinSep sep l := by
  induction l with
  | nil => cases h
  | cons y ys ih =>
    cases h with
    | head =>
      cases ys with
      | nil => exact ⟨[], [], by simp [joinSep]⟩
      | cons z zs => exact ⟨[], sep ++ joinSep sep (z :: zs), by simp [joinSep]⟩
    | tail _ hmem =>
      cases ys with
      | nil => cases hmem
      | cons z zs =>
        obtain ⟨a, b, hab⟩ := ih hmem
        exact ⟨y ++ sep ++ a, b, by
          simp only [joinSep, ← hab, List.append_assoc]⟩

/-- C9: the Prompt Builder is a pure deterministic function of the profile
(equal profiles produce the identical prompt string), and each available
day appears in the rendered prompt as
`- Dayname: h hours, Time: a, b` — day name with its first letter
capitalized, its hours, and its `timeOfDay` labels joined with `", "`. -/
theorem prompt_deterministic_renders (p q : TrainingProfile) (hpq : p = q)
    (d : AvailableDay) (hd : d ∈ p.availableDays) :
    prompt p = prompt q ∧ renderDay d <:+: prompt p := by
  subst hpq
  refine ⟨rfl, ?_⟩
  have h1 : renderDay d <:+: joinSep ("\n".data) (p.availableDays.map renderDay) :=
    mem_infix_joinSep _ _ _ (List.mem_map_of_mem renderDay hd)
  have h2 : joinSep ("\n".data) (p.availableDays.map renderDay) <:+: prompt p :=
    ⟨promptHead p.name p.age p.position p.level p.improvement,
     promptTail p.name p.age p.position p.level, rfl⟩
  exact h1.trans h2

/-- C9 witness: the spec's example profile. -/
theorem prompt_deterministic_renders_witness :
    prompt ⟨("Jo".data), ("16".data), ("Guard".data), ("Intermediate".data),
      ("ball handling".data), [⟨("monday".data), 1, [("Evening".data)]⟩]⟩ =
    prompt ⟨("Jo".data), ("16".data), ("Guard".data), ("Intermediate".data),
      ("ball handling".data), [⟨("monday".data), 1, [("Evening".data)]⟩]⟩ ∧
    renderDay ⟨("monday".data), 1, [("Evening".data)]⟩ <:+:
      prompt ⟨("Jo".data), ("16".data), ("Guard".data), ("Intermediate".data),
        ("ball handling".data), [⟨("monday".data), 1, [("Evening".data)]⟩]⟩ :=
  prompt_deterministic_renders _ _ rfl _ (List.mem_singleton.mpr rfl)

/-- C4 counterexample: when U+2018/U+2019 are used as the string
delimiters, replacing them with straight *single* quotes still leaves text
that strict JSON rejects, so every strategy — and hence the parser — fails:
no equivalent object is recovered. -/
theorem recover_curlySingle_fails : recover curlySingleText = none := by decide

/-- C6 counterexample: `trickyObj` is a valid JSON object, yet feeding the
parser its serialization wrapped in a ```json fence yields a *successful*
parse of a different object (`{"a":""}`): the lazy capture stops at the
triple backtick inside the string, strategy 2's quote replacement then
turns the truncated candidate into valid JSON. The round trip is not
deep-equal to the original. -/
theorem recover_fenceWrap_not_roundtrip :
    trickyObj.wf = true ∧
    recover (fenceWrap (serialize trickyObj)) = some (.obj [(['a'], .str [])]) ∧
    Json.obj [(['a'], .str [])] ≠ trickyObj := by
  refine ⟨by decide, by decide, ?_⟩
  decide

/-! ## Round-trip lemmas: strings -/

/-- Characters with different codes are not `==`. -/
theorem char_beq_false {c d : Char} (h : c.toNat ≠ d.toNat) : (c == d) = false := by
  refine beq_eq_false_iff_ne.mpr (fun he => h ?_)
  rw [he]

/-- `skipWS` does not pass a non-whitespace head. -/
theorem skipWS_cons (c : Char) (l : List Char) (h : jsonWS c = false) :
    skipWS (c :: l) = c :: l := by
  simp [skipWS, List.dropWhile_cons, h]

/-- `hexVal` inverts `hexDigit` below 16. -/
theorem hexVal_hexDigit (n : Nat) (h : n < 16) : hexVal (hexDigit n) = some n := by
  interval_cases n <;> decide

/-- After a backslash, `parseStringBody` defers to `parseEscape`. -/
theorem parseStringBody_backslash (z : List Char) :
    parseStringBody ('\\' :: z) = parseEscape z := by
  simp [parseStringBody]

/-- Decoding the `\u00xx` escape emitted for a control character. -/
theorem parseEscape_hex (n : Nat) (hn : n < 32) (x : List Char) :
    parseEscape ('u' :: '0' :: '0' :: hexDigit (n / 16) :: hexDigit (n % 16) :: x) =
      (parseStringBody x).map (fun p => (Char.ofNat n :: p.1, p.2)) := by
  have e1 : parseEscape ('u' :: '0' :: '0' :: hexDigit (n / 16) :: hexDigit (n % 16) :: x) =
      match hexVal '0', hexVal '0', hexVal (hexDigit (n / 16)), hexVal (hexDigit (n % 16)) with
      | some a, some b, some c4, some d =>
        (parseStringBody x).map
          (fun p => (Char.ofNat (a * 4096 + b * 256 + c4 * 16 + d) :: p.1, p.2))
      | _, _, _, _ => none := rfl
  rw [e1, hexVal_hexDigit _ (by omega), hexVal_hexDigit _ (by omega)]
  have h0 : hexVal '0' = some 0 := by decide
  rw [h0]
  have hv : n / 16 * 16 + n % 16 = n := by omega
  simp [hv]

/-- String round trip: parsing the escaped body (plus closing quote)
recovers the original string and leaves the rest untouched. -/
theorem parseStringBody_escape (s r : List Char) :
    parseStringBody (escapeString s ++ '\"' :: r) = some (s, r) := by
  induction s with
  | nil => simp [escapeString, parseStringBody]
  | cons c t ih =>
    by_cases h1 : c == '\"'
    · have hc : c = '\"' := eq_of_beq h1
      subst hc
      simp [escapeString, escChar, parseStringBody, parseEscape, escDecode, ih]
    · by_cases h2 : c == '\\'
      · have hc : c = '\\' := eq_of_beq h2
        subst hc
        simp [escapeString, escChar, parseStringBody, parseEscape, escDecode, ih]
      · by_cases h3 : c.toNat == 8
        · have hc : c = Char.ofNat 8 := by
            rw [← Char.ofNat_toNat c, eq_of_beq h3]
          simp [escapeString, escChar, h1, h2, hc, parseStringBody, parseEscape,
            escDecode, ih]
        · by_cases h4 : c.toNat == 9
          · have hc : c = Char.ofNat 9 := by
              rw [← Char.ofNat_toNat c, eq_of_beq h4]
            simp [escapeString, escChar, h1, h2, hc, parseStringBody, parseEscape,
              escDecode, ih]
          · by_cases h5 : c.toNat == 10
            · have hc : c = Char.ofNat 10 := by
                rw [← Char.ofNat_toNat c, eq_of_beq h5]
              simp [escapeString, escChar, h1, h2, hc, parseStringBody, parseEscape,
                escDecode, ih]
            · by_cases h6 : c.toNat == 12
              · have hc : c = Char.ofNat 12 := by
                  rw [← Char.ofNat_toNat c, eq_of_beq h6]
                simp [escapeString, escChar, h1, h2, hc, parseStringBody, parseEscape,
                  escDecode, ih]
              · by_cases h7 : c.toNat == 13
                · have hc : c = Char.ofNat 13 := by
                    rw [← Char.ofNat_toNat c, eq_of_beq h7]
                  simp [escapeString, escChar, h1, h2, hc, parseStringBody, parseEscape,
                    escDecode, ih]
                · by_cases h8 : c.toNat < 32
                  · simp only [escapeString, escChar, h1, h2, h3, h4, h5, h6, h7,
                      if_false, if_pos h8, Bool.false_eq_true, List.cons_append,
                      List.append_assoc, List.nil_append]
                    rw [parseStringBody_backslash, parseEscape_hex c.toNat h8, ih]
                    simp [Char.ofNat_toNat]
                  · simp [escapeString, escChar, h1, h2, h3, h4, h5, h6, h7, h8,
                      parseStringBody, ih]

/-! ## Round-trip lemmas: numbers -/

theorem delimOk.numDelim {r : List Char} (h : delimOk r) : numDelim r := by
  cases r with
  | nil => trivial
  | cons c t =>
    rcases h with h | h | h <;> subst h <;> exact ⟨by decide, by decide,
      by decide, by decide, by decide, by decide⟩

/-- The head of a `dropWhile` result fails the predicate. -/
theorem dropWhile_head_not (p : Char → Bool) (l : List Char) :
    (match l.dropWhile p with | [] => True | c :: _ => p c = false : Prop) := by
  induction l with
  | nil => trivial
  | cons c t ih =>
    by_cases hc : p c
    · simpa [List.dropWhile_cons, hc] using ih
    · simp only [List.dropWhile_cons, if_neg hc]
      simpa using hc

/-- `takeWhile`/`dropWhile` on a block of satisfying characters followed by
a non-satisfying head. -/
theorem takeWhile_block (p : Char → Bool) (a x : List Char)
    (ha : ∀ c ∈ a, p c = true)
    (hx : (match x with | [] => True | c :: _ => p c = false : Prop)) :
    (a ++ x).takeWhile p = a ∧ (a ++ x).dropWhile p = x := by
  induction a with
  | nil =>
    cases x with
    | nil => simp
    | cons c t => simp_all [List.takeWhile_cons, List.dropWhile_cons]
  | cons c a' ih =>
    have hc : p c = true := ha c (List.mem_cons_self c a')
    have := ih (fun d hd => ha d (List.mem_cons_of_mem c hd))
    simp_all [List.takeWhile_cons, List.dropWhile_cons]

/-- Extending the input after a digit `span` when the remainder cannot
continue the digit run. -/
theorem span_digits_extend (l r a b : List Char)
    (hsp : l.span isDigit = (a, b))
    (hr : (match r with | [] => True | c :: _ => isDigit c = false : Prop)) :
    (l ++ r).span isDigit = (a, b ++ r) := by
  rw [List.span_eq_take_drop] at hsp ⊢
  injection hsp with h1 h2
  have hl : l = a ++ b := by rw [← h1, ← h2, List.takeWhile_append_dropWhile]
  have ha : ∀ c ∈ a, isDigit c = true := fun c hc =>
    List.mem_takeWhile_imp (h1 ▸ hc)
  cases b with
  | nil =>
    subst hl
    have := takeWhile_block isDigit a r ha (by simpa using hr)
    simp [this.1, this.2]
  | cons d b' =>
    have hd : isDigit d = false := by
      have := dropWhile_head_not isDigit l
      rw [h2] at this
      exact this
    subst hl
    have := takeWhile_block isDigit a (d :: b' ++ r) ha (by simpa using hd)
    rw [List.append_assoc]
    simp only [List.cons_append] at this
    simp [this.1, this.2]

theorem pSign_split (l : List Char) : l = (pSign l).1 ++ (pSign l).2 := by
  cases l with
  | nil => rfl
  | cons c u =>
    by_cases hc : c == '-'
    · rw [eq_of_beq hc]
      simp [pSign]
    · simp [pSign, hc]

theorem pInt_split (l ip l2 : List Char) (h : pInt l = some (ip, l2)) :
    l = ip ++ l2 := by
  cases l with
  | nil => exact absurd h (by simp [pInt])
  | cons c u =>
    by_cases hc : c == '0'
    · rw [eq_of_beq hc] at h ⊢
      simp [pInt] at h
      simp [← h.1, ← h.2]
    · by_cases hd : isDigit c
      · simp [pInt, hc, hd, List.span_eq_take_drop] at h
        rw [← h.1, ← h.2]
        simp [List.takeWhile_append_dropWhile]
      · exact absurd h (by simp [pInt, hc, hd])

theorem pFrac_split (l fp l3 : List Char) (h : pFrac l = some (fp, l3)) :
    l = fp ++ l3 := by
  cases l with
  | nil => simp [pFrac] at h; simp [h.1, h.2]
  | cons c u =>
    by_cases hc : c == '.'
    · rw [eq_of_beq hc] at h ⊢
      rw [show pFrac ('.' :: u) = (match u.span isDigit with
        | ([], _) => none
        | (ds, r) => some ('.' :: ds, r)) from by simp [pFrac]] at h
      cases hs : u.span isDigit with
      | mk a b =>
        rw [hs] at h
        cases a with
        | nil => exact absurd h (by simp)
        | cons d ds' =>
          simp at h
          rw [List.span_eq_take_drop] at hs
          injection hs with hs1 hs2
          rw [← h.1, ← h.2, ← hs1, ← hs2]
          simp [List.takeWhile_append_dropWhile]
    · simp [pFrac, hc] at h
      simp [← h.1, ← h.2]

theorem pExpSign_split (l : List Char) : l = (pExpSign l).1 ++ (pExpSign l).2 := by
  cases l with
  | nil => rfl
  | cons c u =>
    by_cases hp : c == '+'
    · rw [eq_of_beq hp]
      simp [pExpSign]
    · by_cases hm : c == '-'
      · rw [eq_of_beq hm]
        simp [pExpSign]
      · simp [pExpSign, hp, hm]

theorem pExp_split (l ep l4 : List Char) (h : pExp l = some (ep, l4)) :
    l = ep ++ l4 := by
  cases l with
  | nil => simp [pExp] at h; simp [h.1, h.2]
  | cons c u =>
    by_cases hc : (c == 'e' || c == 'E') = true
    · rw [show pExp (c :: u) = (match (pExpSign u).2.span isDigit with
        | ([], _) => none
        | (ds, r) => some (c :: (pExpSign u).1 ++ ds, r)) from by simp [pExp, hc]] at h
      cases hs : (pExpSign u).2.span isDigit with
      | mk a b =>
        rw [hs] at h
        cases a with
        | nil => exact absurd h (by simp)
        | cons d ds' =>
          simp at h
          rw [List.span_eq_take_drop] at hs
          injection hs with hs1 hs2
          rw [← h.1, ← h.2]
          have hu : u = (pExpSign u).1 ++ (pExpSign u).2 := pExpSign_split u
          calc c :: u = c :: ((pExpSign u).1 ++ (pExpSign u).2) := by rw [← hu]
            _ = c :: ((pExpSign u).1 ++ (d :: ds' ++ b)) := by
                  rw [← hs1, ← hs2, List.takeWhile_append_dropWhile]
            _ = c :: (pExpSign u).1 ++ (d :: ds') ++ b := by simp
    · simp [pExp, hc] at h
      simp [← h.1, ← h.2]

theorem parseNumber_split (l t rest : List Char)
    (h : parseNumber l = some (t, rest)) : l = t ++ rest := by
  unfold parseNumber at h
  cases hint : pInt (pSign l).2 with
  | none => rw [hint] at h; exact absurd h (by simp)
  | some p =>
    obtain ⟨ip, l2⟩ := p
    rw [hint] at h
    dsimp only at h
    cases hfrac : pFrac l2 with
    | none => rw [hfrac] at h; exact absurd h (by simp)
    | some q =>
      obtain ⟨fp, l3⟩ := q
      rw [hfrac] at h
      dsimp only at h
      cases hexp : pExp l3 with
      | none => rw [hexp] at h; exact absurd h (by simp)
      | some w =>
        obtain ⟨ep, l4⟩ := w
        rw [hexp] at h
        simp at h
        rw [← h.1, ← h.2]
        calc l = (pSign l).1 ++ (pSign l).2 := pSign_split l
          _ = (pSign l).1 ++ (ip ++ l2) := by rw [← pInt_split _ _ _ hint]
          _ = (pSign l).1 ++ (ip ++ (fp ++ l3)) := by rw [← pFrac_split _ _ _ hfrac]
          _ = (pSign l).1 ++ (ip ++ (fp ++ (ep ++ l4))) := by rw [← pExp_split _ _ _ hexp]
          _ = (pSign l).1 ++ (ip ++ (fp ++ ep)) ++ l4 := by simp [List.append_assoc]

theorem pSign_extend (l r : List Char) (hr : numDelim r) :
    pSign (l ++ r) = ((pSign l).1, (pSign l).2 ++ r) := by
  cases l with
  | nil =>
    cases r with
    | nil => rfl
    | cons c t =>
      obtain ⟨-, -, -, -, -, hm⟩ := hr
      simp [pSign, beq_eq_false_iff_ne.mpr hm]
  | cons c u =>
    by_cases hc : c == '-' <;> simp [pSign, hc]

theorem pInt_extend (l r ip l2 : List Char) (h : pInt l = some (ip, l2))
    (hr : numDelim r) : pInt (l ++ r) = some (ip, l2 ++ r) := by
  cases l with
  | nil => exact absurd h (by simp [pInt])
  | cons c u =>
    by_cases hc : c == '0'
    · simp only [pInt, hc, if_true, Option.some.injEq, Prod.mk.injEq] at h
      simp [pInt, hc, h.1, h.2]
    · by_cases hd : isDigit c
      · simp only [pInt, hc, hd, if_true, if_false, Bool.false_eq_true,
          Option.some.injEq, Prod.mk.injEq] at h
        cases hs : u.span isDigit with
        | mk a b =>
          rw [hs] at h
          have hext : (u ++ r).span isDigit = (a, b ++ r) := by
            apply span_digits_extend u r a b hs
            cases r with
            | nil => trivial
            | cons d t => exact hr.1
          rw [List.span_eq_take_drop] at hext
          injection hext with he1 he2
          simp [pInt, hc, hd, List.cons_append, he1, he2, ← h.1, ← h.2]
      · exact absurd h (by simp [pInt, hc, hd])

theorem pFrac_extend (l r fp l3 : List Char) (h : pFrac l = some (fp, l3))
    (hr : numDelim r) : pFrac (l ++ r) = some (fp, l3 ++ r) := by
  cases l with
  | nil =>
    simp [pFrac] at h
    cases r with
    | nil => simp [pFrac, h.1, h.2]
    | cons c t =>
      obtain ⟨-, hdot, -, -, -, -⟩ := hr
      simp [pFrac, beq_eq_false_iff_ne.mpr hdot, h.1, h.2]
  | cons c u =>
    by_cases hc : c == '.'
    · rw [eq_of_beq hc] at h ⊢
      rw [show pFrac ('.' :: u) = (match u.span isDigit with
        | ([], _) => none
        | (ds, r) => some ('.' :: ds, r)) from by simp [pFrac]] at h
      cases hs : u.span isDigit with
      | mk a b =>
        rw [hs] at h
        cases a with
        | nil => exact absurd h (by simp)
        | cons d ds' =>
          simp at h
          have hext : (u ++ r).span isDigit = (d :: ds', b ++ r) := by
            apply span_digits_extend u r (d :: ds') b hs
            cases r with
            | nil => trivial
            | cons e t => exact hr.1
          rw [List.cons_append]
          rw [show pFrac ('.' :: (u ++ r)) = (match (u ++ r).span isDigit with
            | ([], _) => none
            | (ds, r) => some ('.' :: ds, r)) from by simp [pFrac]]
          rw [hext]
          simp [← h.1, ← h.2]
    · simp only [pFrac, hc, Bool.false_eq_true, if_false, Option.some.injEq,
        Prod.mk.injEq] at h
      simp [pFrac, hc, ← h.1, ← h.2]

theorem pExpSign_extend (l r : List Char) (hr : numDelim r) :
    pExpSign (l ++ r) = ((pExpSign l).1, (pExpSign l).2 ++ r) := by
  cases l with
  | nil =>
    cases r with
    | nil => rfl
    | cons c t =>
      obtain ⟨-, -, -, -, hp, hm⟩ := hr
      simp [pExpSign, beq_eq_false_iff_ne.mpr hp, beq_eq_false_iff_ne.mpr hm]
  | cons c u =>
    by_cases hp : c == '+'
    · simp [pExpSign, hp]
    · by_cases hm : c == '-' <;> simp [pExpSign, hp, hm]

theorem pExp_extend (l r ep l4 : List Char) (h : pExp l = some (ep, l4))
    (hr : numDelim r) : pExp (l ++ r) = some (ep, l4 ++ r) := by
  cases l with
  | nil =>
    simp [pExp] at h
    cases r with
    | nil => simp [pExp, h.1, h.2]
    | cons c t =>
      obtain ⟨-, -, he, hE, -, -⟩ := hr
      simp [pExp, beq_eq_false_iff_ne.mpr he, beq_eq_false_iff_ne.mpr hE, h.1, h.2]
  | cons c u =>
    by_cases hc : (c == 'e' || c == 'E') = true
    · rw [show pExp (c :: u) = (match (pExpSign u).2.span isDigit with
        | ([], _) => none
        | (ds, r) => some (c :: (pExpSign u).1 ++ ds, r)) from by simp [pExp, hc]] at h
      cases hs : (pExpSign u).2.span isDigit with
      | mk a b =>
        rw [hs] at h
        cases a with
        | nil => exact absurd h (by simp)
        | cons d ds' =>
          simp at h
          have hsgn := pExpSign_extend u r hr
          have hext : ((pExpSign u).2 ++ r).span isDigit = (d :: ds', b ++ r) := by
            apply span_digits_extend _ r (d :: ds') b hs
            cases r with
            | nil => trivial
            | cons e t => exact hr.1
          rw [List.span_eq_take_drop] at hext
          injection hext with he1 he2
          rw [List.cons_append]
          simp only [pExp, hc, if_true, hsgn]
          simp only [List.span_eq_take_drop, he1, he2]
          simp [← h.1, ← h.2]
    · simp only [pExp, hc, Bool.false_eq_true, if_false, Option.some.injEq,
        Prod.mk.injEq] at h
      simp [pExp, hc, ← h.1, ← h.2]

/-- Appending a value delimiter to a complete number literal leaves the
parsed token unchanged. -/
theorem parseNumber_extend (l r : List Char) (h : parseNumber l = some (l, []))
    (hr : numDelim r) : parseNumber (l ++ r) = some (l, r) := by
  unfold parseNumber at h ⊢
  rw [pSign_extend l r hr]
  cases hint : pInt (pSign l).2 with
  | none => rw [hint] at h; exact absurd h (by simp)
  | some p =>
    obtain ⟨ip, l2⟩ := p
    rw [hint] at h
    dsimp only at h
    rw [pInt_extend _ r _ _ hint hr]
    dsimp only
    cases hfrac : pFrac l2 with
    | none => rw [hfrac] at h; exact absurd h (by simp)
    | some q =>
      obtain ⟨fp, l3⟩ := q
      rw [hfrac] at h
      dsimp only at h
      rw [pFrac_extend _ r _ _ hfrac hr]
      dsimp only
      cases hexp : pExp l3 with
      | none => rw [hexp] at h; exact absurd h (by simp)
      | some w =>
        obtain ⟨ep, l4⟩ := w
        rw [hexp] at h
        simp only [Option.some.injEq, Prod.mk.injEq] at h
        rw [pExp_extend _ r _ _ hexp hr]
        dsimp only
        rw [h.2]
        have h1 := h.1
        simp only [List.append_assoc] at h1
        simp [h1]

/-- A valid numeral literal parses exactly to itself. -/
theorem validNum_spec (l : List Char) (h : validNum l = true) :
    parseNumber l = some (l, []) := by
  unfold validNum at h
  cases hpn : parseNumber l with
  | none => rw [hpn] at h; exact absurd h (by simp)
  | some p =>
    obtain ⟨t, rest⟩ := p
    rw [hpn] at h
    simp at h
    subst h
    have hsplit := parseNumber_split l t [] hpn
    simp at hsplit
    rw [hsplit]

/-- A number token starts with a minus sign or a digit. -/
theorem parseNumber_head (c : Char) (t : List Char) (x : List Char × List Char)
    (h : parseNumber (c :: t) = some x) : c = '-' ∨ isDigit c = true := by
  by_cases hm : c == '-'
  · exact Or.inl (eq_of_beq hm)
  · right
    unfold parseNumber at h
    rw [show pSign (c :: t) = ([], c :: t) from by simp [pSign, hm]] at h
    dsimp only at h
    by_cases h0 : c == '0'
    · rw [eq_of_beq h0]
      decide
    · by_cases hd : isDigit c
      · exact hd
      · rw [show pInt (c :: t) = none from by simp [pInt, h0, hd]] at h
        exact absurd h (by simp)

/-- A sign-or-digit head is not whitespace and not any of the other value
dispatch characters. -/
theorem numHead_facts (c : Char) (h : c = '-' ∨ isDigit c = true) :
    jsonWS c = false ∧ (c == 'n') = false ∧ (c == 't') = false ∧
    (c == 'f') = false ∧ (c == '\"') = false ∧ (c == '{') = false ∧
    (c == '[') = false ∧ (c == ']') = false ∧ (c == '}') = false := by
  rcases h with h | h
  · subst h
    exact ⟨by decide, by decide, by decide, by decide, by decide, by decide,
      by decide, by decide, by decide⟩
  · have hb : 48 ≤ c.toNat ∧ c.toNat ≤ 57 := by simpa [isDigit] using h
    refine ⟨?_, char_beq_false (by have hx : ('n').toNat = 110 := (by decide); rw [hx]; omega),
      char_beq_false (by have hx : ('t').toNat = 116 := (by decide); rw [hx]; omega),
      char_beq_false (by have hx : ('f').toNat = 102 := (by decide); rw [hx]; omega),
      char_beq_false (by have hx : ('\"').toNat = 34 := (by decide); rw [hx]; omega),
      char_beq_false (by have hx : ('{').toNat = 123 := (by decide); rw [hx]; omega),
      char_beq_false (by have hx : ('[').toNat = 91 := (by decide); rw [hx]; omega),
      char_beq_false (by have hx : (']').toNat = 93 := (by decide); rw [hx]; omega),
      char_beq_false (by have hx : ('}').toNat = 125 := (by decide); rw [hx]; omega)⟩
    simp only [jsonWS, Bool.or_eq_false_iff, beq_eq_false_iff_ne, ne_eq]
    omega

/-- A nonempty member list serializes with a leading quote. -/
theorem serializeFields_head (k : List Char) (v : Json)
    (fs : List (List Char × Json)) :
    ∃ t, serializeFields ((k, v) :: fs) = '\"' :: t := by
  cases fs with
  | nil => exact ⟨_, rfl⟩
  | cons f fs' => exact ⟨_, rfl⟩

/-- Every well-formed value serializes to a nonempty string whose head is
not whitespace and not a closing bracket or brace. -/
theorem serialize_head (v : Json) (hwf : v.wf = true) :
    ∃ c t, serialize v = c :: t ∧ jsonWS c = false ∧ (c == ']') = false ∧
      (c == '}') = false := by
  cases v with
  | null => refine ⟨'n', _, rfl, ?_, ?_, ?_⟩ <;> decide
  | bool b =>
    cases b with
    | true => refine ⟨'t', _, rfl, ?_, ?_, ?_⟩ <;> decide
    | false => refine ⟨'f', _, rfl, ?_, ?_, ?_⟩ <;> decide
  | str s => refine ⟨'\"', _, rfl, ?_, ?_, ?_⟩ <;> decide
  | arr xs => refine ⟨'[', _, rfl, ?_, ?_, ?_⟩ <;> decide
  | obj fs => refine ⟨'{', _, rfl, ?_, ?_, ?_⟩ <;> decide
  | num lit =>
    have hlit := validNum_spec lit (by simpa [Json.wf] using hwf)
    cases lit with
    | nil => exact absurd hlit (by decide)
    | cons c t =>
      have hh := parseNumber_head c t _ hlit
      have hf := numHead_facts c hh
      exact ⟨c, t, rfl, hf.1, hf.2.2.2.2.2.2.2.1, hf.2.2.2.2.2.2.2.2⟩

/-- Inserting a fresh key appends it. -/
theorem insertKey_fresh (acc : List (List Char × Json)) (k : List Char) (v : Json)
    (h : ∀ kv ∈ acc, (kv : List Char × Json).1 ≠ k) :
    insertKey acc k v = acc ++ [(k, v)] := by
  induction acc with
  | nil => rfl
  | cons a t ih =>
    obtain ⟨k2, v2⟩ := a
    have hne : k2 ≠ k := h (k2, v2) (List.mem_cons_self _ _)
    simp [insertKey, hne, ih (fun kv hm => h kv (List.mem_cons_of_mem _ hm))]

/-- On a member list with fresh, pairwise-distinct keys the JavaScript
insertion fold is the identity (relative to an accumulator). -/
theorem dedupJS_go (fs : List (List Char × Json)) :
    ∀ acc, nodupKeys (fs.map Prod.fst) = true →
      (∀ kv ∈ fs, ∀ a ∈ acc, (a : List Char × Json).1 ≠ (kv : List Char × Json).1) →
      fs.foldl (fun acc kv => insertKey acc kv.1 kv.2) acc = acc ++ fs := by
  induction fs with
  | nil => intro acc _ _; simp
  | cons kv fs' ih =>
    intro acc hnd hdisj
    obtain ⟨k, v⟩ := kv
    simp only [List.foldl_cons]
    rw [insertKey_fresh acc k v
      (fun a ha => hdisj (k, v) (List.mem_cons_self _ _) a ha)]
    simp only [List.map_cons, nodupKeys, Bool.and_eq_true] at hnd
    rw [ih (acc ++ [(k, v)]) hnd.2 ?fresh]
    · simp
    case fresh =>
      intro kv' hm a ha
      rcases List.mem_append.mp ha with ha | ha
      · exact hdisj kv' (List.mem_cons_of_mem _ hm) a ha
      · have hak : a = (k, v) := by simpa using ha
        subst hak
        simp only [ne_eq]
        intro he
        have he' : k = kv'.1 := by simpa using he
        have hk : k ∈ fs'.map Prod.fst := by
          rw [he']
          exact List.mem_map_of_mem Prod.fst hm
        have hc : (fs'.map Prod.fst).contains k = true :=
          List.elem_eq_true_of_mem hk
        rw [hc] at hnd
        simpa using hnd.1

/-- JavaScript's duplicate-key resolution is the identity on a member list
without duplicate keys. -/
theorem dedupJS_nodup (fs : List (List Char × Json))
    (hnd : nodupKeys (fs.map Prod.fst) = true) : dedupJS fs = fs := by
  have := dedupJS_go fs [] hnd (by simp)
  simpa [dedupJS] using this

mutual

/-- Round trip: a serialized well-formed value parses back to itself,
leaving any following delimiter-headed rest untouched. -/
theorem parseValue_serialize (v : Json) : ∀ (r : List Char) (fuel : Nat),
    v.wf = true → delimOk r → 3 * (serialize v).length ≤ fuel →
    parseValue fuel (serialize v ++ r) = some (v, r) := by
  cases v with
  | null =>
    intro r fuel _ _ hf
    cases fuel with
    | zero => simp [serialize] at hf
    | succ f => rfl
  | bool b =>
    intro r fuel _ _ hf
    cases b <;> cases fuel with
    | zero => simp [serialize] at hf
    | succ f => rfl
  | str s =>
    intro r fuel _ _ hf
    cases fuel with
    | zero => simp [serialize] at hf
    | succ f =>
      have e : serialize (.str s) ++ r = '\"' :: (escapeString s ++ '\"' :: r) := by
        simp [serialize]
      rw [e]
      have e2 : parseValue (f + 1) ('\"' :: (escapeString s ++ '\"' :: r)) =
          (parseStringBody (escapeString s ++ '\"' :: r)).map
            (fun p => (Json.str p.1, p.2)) := rfl
      rw [e2, parseStringBody_escape]
      rfl
  | num lit =>
    intro r fuel hwf hr hf
    have hpn := validNum_spec lit (by simpa [Json.wf] using hwf)
    cases lit with
    | nil => exact absurd hpn (by decide)
    | cons c t =>
      have hh := parseNumber_head c t _ hpn
      obtain ⟨hws, hn, ht2, hf2, hq, hcb, hsb, -, -⟩ := numHead_facts c hh
      cases fuel with
      | zero => simp [serialize] at hf
      | succ f =>
        have hext := parseNumber_extend (c :: t) r hpn hr.numDelim
        have hext2 : parseNumber (c :: (t ++ r)) = some (c :: t, r) := by
          simpa using hext
        have e : serialize (.num (c :: t)) ++ r = c :: (t ++ r) := by
          simp [serialize]
        rw [e]
        have e2 : parseValue (f + 1) (c :: (t ++ r)) =
            (match skipWS (c :: (t ++ r)) with
             | [] => none
             | c :: rest =>
               if c == 'n' then
                 match rest with
                 | 'u' :: 'l' :: 'l' :: r => some (.null, r)
                 | _ => none
               else if c == 't' then
                 match rest with
                 | 'r' :: 'u' :: 'e' :: r => some (.bool true, r)
                 | _ => none
               else if c == 'f' then
                 match rest with
                 | 'a' :: 'l' :: 's' :: 'e' :: r => some (.bool false, r)
                 | _ => none
               else if c == '\"' then
                 (parseStringBody rest).map (fun p => (.str p.1, p.2))
               else if c == '{' then
                 (parseFields f (skipWS rest)).map
                   (fun p => (.obj (dedupJS p.1), p.2))
               else if c == '[' then
                 (parseItems f (skipWS rest)).map (fun p => (.arr p.1, p.2))
               else
                 (parseNumber (c :: rest)).map (fun p => (.num p.1, p.2))) := rfl
        rw [e2, skipWS_cons _ _ hws]
        simp only [hn, ht2, hf2, hq, hcb, hsb, Bool.false_eq_true, if_false]
        rw [hext2]
        rfl
  | arr xs =>
    intro r fuel hwf hr hf
    have hwl : Json.wfList xs = true := by simpa [Json.wf] using hwf
    cases fuel with
    | zero => simp [serialize] at hf
    | succ f =>
      have e : serialize (.arr xs) ++ r = '[' :: (serializeElems xs ++ ']' :: r) := by
        simp [serialize]
      rw [e]
      have e2 : parseValue (f + 1) ('[' :: (serializeElems xs ++ ']' :: r)) =
          (parseItems f (skipWS (serializeElems xs ++ ']' :: r))).map
            (fun p => (Json.arr p.1, p.2)) := rfl
      rw [e2]
      have hlen : (serialize (.arr xs)).length = 2 + (serializeElems xs).length := by
        simp [serialize]
        omega
      rw [hlen] at hf
      cases xs with
      | nil =>
        cases f with
        | zero => omega
        | succ f2 =>
          have e3 : serializeElems ([] : List Json) ++ ']' :: r = ']' :: r := by
            simp [serializeElems]
          rw [e3, skipWS_cons _ _ (by decide)]
          rfl
      | cons x xs' =>
        have hwx : x.wf = true := by
          simp only [Json.wfList, Bool.and_eq_true] at hwl
          exact hwl.1
        obtain ⟨y, hy⟩ : ∃ y, serializeElems (x :: xs') = serialize x ++ y := by
          cases xs' with
          | nil => exact ⟨[], by simp [serializeElems]⟩
          | cons a b => exact ⟨_, rfl⟩
        obtain ⟨c, t2, hser, hws2, hnb, -⟩ := serialize_head x hwx
        have hZ : serializeElems (x :: xs') ++ ']' :: r =
            c :: (t2 ++ y ++ ']' :: r) := by
          rw [hy, hser]
          simp [List.append_assoc]
        rw [hZ, skipWS_cons _ _ hws2]
        cases f with
        | zero => omega
        | succ f2 =>
          have e3 : parseItems (f2 + 1) (c :: (t2 ++ y ++ ']' :: r)) =
              if c == ']' then some ([], t2 ++ y ++ ']' :: r)
              else parseElems f2 (c :: (t2 ++ y ++ ']' :: r)) := rfl
          rw [e3, hnb]
          simp only [Bool.false_eq_true, if_false]
          rw [← hZ]
          rw [parseElems_serialize (x :: xs') r (by simp) hwl f2 (by omega)]
          rfl
  | obj fs =>
    intro r fuel hwf hr hf
    have hwl : Json.wfFields fs = true ∧ nodupKeys (fs.map Prod.fst) = true := by
      simpa [Json.wf, Bool.and_eq_true] using hwf
    cases fuel with
    | zero => simp [serialize] at hf
    | succ f =>
      have e : serialize (.obj fs) ++ r = '{' :: (serializeFields fs ++ '}' :: r) := by
        simp [serialize]
      rw [e]
      have e2 : parseValue (f + 1) ('{' :: (serializeFields fs ++ '}' :: r)) =
          (parseFields f (skipWS (serializeFields fs ++ '}' :: r))).map
            (fun p => (Json.obj (dedupJS p.1), p.2)) := rfl
      rw [e2]
      have hlen : (serialize (.obj fs)).length = 2 + (serializeFields fs).length := by
        simp [serialize]
        omega
      rw [hlen] at hf
      cases fs with
      | nil =>
        cases f with
        | zero => omega
        | succ f2 =>
          have e3 : serializeFields ([] : List (List Char × Json)) ++ '}' :: r =
              '}' :: r := by simp [serializeFields]
          rw [e3, skipWS_cons _ _ (by decide)]
          rfl
      | cons kv fs' =>
        obtain ⟨k, v0⟩ := kv
        obtain ⟨tl, htl⟩ := serializeFields_head k v0 fs'
        have hZ : serializeFields ((k, v0) :: fs') ++ '}' :: r =
            '\"' :: (tl ++ '}' :: r) := by
          rw [htl]
          simp
        rw [hZ, skipWS_cons _ _ (by decide)]
        cases f with
        | zero => omega
        | succ f2 =>
          have e3 : parseFields (f2 + 1) ('\"' :: (tl ++ '}' :: r)) =
              if ('\"' : Char) == '}' then some ([], tl ++ '}' :: r)
              else parseMembers f2 ('\"' :: (tl ++ '}' :: r)) := rfl
          rw [e3]
          simp only [show (('\"' : Char) == '}') = false from by decide,
            Bool.false_eq_true, if_false]
          rw [← hZ]
          rw [parseMembers_serialize ((k, v0) :: fs') r (by simp) hwl.1 f2 (by omega)]
          simp [dedupJS_nodup _ hwl.2]
  termination_by sizeOf v

/-- Round trip for nonempty array element lists. -/
theorem parseElems_serialize (xs : List Json) : ∀ (r : List Char), xs ≠ [] →
    Json.wfList xs = true → ∀ fuel : Nat,
    1 + 3 * (serializeElems xs).length ≤ fuel →
    parseElems fuel (serializeElems xs ++ ']' :: r) = some (xs, r) := by
  cases xs with
  | nil => intro r hne; exact absurd rfl hne
  | cons x xs' =>
    cases xs' with
    | nil =>
      intro r _ hwf fuel hfuel
      have hwx : x.wf = true := by
        simp only [Json.wfList, Bool.and_eq_true] at hwf
        exact hwf.1
      cases fuel with
      | zero => omega
      | succ f =>
        have hE : serializeElems [x] = serialize x := rfl
        rw [hE] at hfuel ⊢
        have e : parseElems (f + 1) (serialize x ++ ']' :: r) =
            (match parseValue f (serialize x ++ ']' :: r) with
             | none => none
             | some (v, r') =>
               match skipWS r' with
               | [] => none
               | c :: r2 =>
                 if c == ',' then (parseElems f r2).map (fun p => (v :: p.1, p.2))
                 else if c == ']' then some ([v], r2)
                 else none) := rfl
        rw [e, parseValue_serialize x (']' :: r) f hwx (by simp [delimOk]) (by omega)]
        dsimp only
        rw [skipWS_cons _ _ (by decide)]
        dsimp only
        simp only [show ((']' : Char) == ',') = false from by decide,
          show ((']' : Char) == ']') = true from by decide,
          Bool.false_eq_true, if_false, if_true]
    | cons x2 xs2 =>
      intro r _ hwf fuel hfuel
      have hwx : x.wf = true := by
        simp only [Json.wfList, Bool.and_eq_true] at hwf
        exact hwf.1
      have hwrest : Json.wfList (x2 :: xs2) = true := by
        simp only [Json.wfList, Bool.and_eq_true] at hwf ⊢
        exact ⟨hwf.2.1, hwf.2.2⟩
      cases fuel with
      | zero => omega
      | succ f =>
        have hE : serializeElems (x :: x2 :: xs2) =
            serialize x ++ ',' :: serializeElems (x2 :: xs2) := rfl
        rw [hE] at hfuel ⊢
        have hassoc : (serialize x ++ ',' :: serializeElems (x2 :: xs2)) ++ ']' :: r =
            serialize x ++ (',' :: (serializeElems (x2 :: xs2) ++ ']' :: r)) := by
          simp [List.append_assoc]
        rw [hassoc]
        have e : parseElems (f + 1)
            (serialize x ++ (',' :: (serializeElems (x2 :: xs2) ++ ']' :: r))) =
            (match parseValue f
                (serialize x ++ (',' :: (serializeElems (x2 :: xs2) ++ ']' :: r))) with
             | none => none
             | some (v, r') =>
               match skipWS r' with
               | [] => none
               | c :: r2 =>
                 if c == ',' then (parseElems f r2).map (fun p => (v :: p.1, p.2))
                 else if c == ']' then some ([v], r2)
                 else none) := rfl
        rw [e, parseValue_serialize x _ f hwx (by simp [delimOk]) (by
          simp only [List.length_append, List.length_cons] at hfuel
          omega)]
        dsimp only
        rw [skipWS_cons _ _ (by decide)]
        dsimp only
        simp only [show ((',' : Char) == ',') = true from by decide, if_true]
        rw [parseElems_serialize (x2 :: xs2) r (by simp) hwrest f (by
          simp only [List.length_append, List.length_cons] at hfuel
          omega)]
        rfl
  termination_by sizeOf xs

/-- Round trip for nonempty object member lists. -/
theorem parseMembers_serialize (fs : List (List Char × Json)) :
    ∀ (r : List Char), fs ≠ [] → Json.wfFields fs = true → ∀ fuel : Nat,
    1 + 3 * (serializeFields fs).length ≤ fuel →
    parseMembers fuel (serializeFields fs ++ '}' :: r) = some (fs, r) := by
  cases fs with
  | nil => intro r hne; exact absurd rfl hne
  | cons kv fs' =>
    obtain ⟨k, v0⟩ := kv
    cases fs' with
    | nil =>
      intro r _ hwf fuel hfuel
      have hwv : v0.wf = true := by
        simp only [Json.wfFields, Bool.and_eq_true] at hwf
        exact hwf.1
      cases fuel with
      | zero => omega
      | succ f =>
        have hE : serializeFields [(k, v0)] =
            '\"' :: (escapeString k ++ '\"' :: ':' :: serialize v0) := rfl
        rw [hE] at hfuel ⊢
        have hassoc : ('\"' :: (escapeString k ++ '\"' :: ':' :: serialize v0)) ++ '}' :: r =
            '\"' :: (escapeString k ++ '\"' :: (':' :: (serialize v0 ++ '}' :: r))) := by
          simp [List.append_assoc]
        rw [hassoc]
        have e : parseMembers (f + 1)
            ('\"' :: (escapeString k ++ '\"' :: (':' :: (serialize v0 ++ '}' :: r)))) =
            (match parseStringBody (escapeString k ++ '\"' :: (':' :: (serialize v0 ++ '}' :: r))) with
             | none => none
             | some (k2, r1) =>
               match skipWS r1 with
               | [] => none
               | c1 :: r2 =>
                 if c1 == ':' then
                   match parseValue f r2 with
                   | none => none
                   | some (v, r3) =>
                     match skipWS r3 with
                     | [] => none
                     | c2 :: r4 =>
                       if c2 == ',' then
                         (parseMembers f (skipWS r4)).map (fun p => ((k2, v) :: p.1, p.2))
                       else if c2 == '}' then some ([(k2, v)], r4)
                       else none
                 else none) := rfl
        rw [e, parseStringBody_escape]
        dsimp only
        rw [skipWS_cons _ _ (by decide)]
        dsimp only
        simp only [show ((':' : Char) == ':') = true from by decide, if_true]
        rw [parseValue_serialize v0 ('}' :: r) f hwv (by simp [delimOk]) (by
          simp only [List.length_append, List.length_cons] at hfuel
          omega)]
        dsimp only
        rw [skipWS_cons _ _ (by decide)]
        dsimp only
        simp only [show (('}' : Char) == ',') = false from by decide,
          show (('}' : Char) == '}') = true from by decide,
          Bool.false_eq_true, if_false, if_true]
    | cons kv2 fs2 =>
      intro r _ hwf fuel hfuel
      have hwv : v0.wf = true := by
        simp only [Json.wfFields, Bool.and_eq_true] at hwf
        exact hwf.1
      have hwrest : Json.wfFields (kv2 :: fs2) = true := by
        simp only [Json.wfFields] at hwf ⊢
        obtain ⟨k2, v2⟩ := kv2
        simp only [Bool.and_eq_true] at hwf ⊢
        exact ⟨hwf.2.1, hwf.2.2⟩
      cases fuel with
      | zero => omega
      | succ f =>
        have hE : serializeFields ((k, v0) :: kv2 :: fs2) =
            '\"' :: (escapeString k ++ '\"' :: ':' :: serialize v0) ++
              ',' :: serializeFields (kv2 :: fs2) := rfl
        rw [hE] at hfuel ⊢
        have hassoc : ('\"' :: (escapeString k ++ '\"' :: ':' :: serialize v0) ++
              ',' :: serializeFields (kv2 :: fs2)) ++ '}' :: r =
            '\"' :: (escapeString k ++ '\"' :: (':' :: (serialize v0 ++
              ',' :: (serializeFields (kv2 :: fs2) ++ '}' :: r)))) := by
          simp [List.append_assoc]
        rw [hassoc]
        have e : parseMembers (f + 1)
            ('\"' :: (escapeString k ++ '\"' :: (':' :: (serialize v0 ++
              ',' :: (serializeFields (kv2 :: fs2) ++ '}' :: r))))) =
            (match parseStringBody (escapeString k ++ '\"' :: (':' :: (serialize v0 ++
                ',' :: (serializeFields (kv2 :: fs2) ++ '}' :: r)))) with
             | none => none
             | some (k2, r1) =>
               match skipWS r1 with
               | [] => none
               | c1 :: r2 =>
                 if c1 == ':' then
                   match parseValue f r2 with
                   | none => none
                   | some (v, r3) =>
                     match skipWS r3 with
                     | [] => none
                     | c2 :: r4 =>
                       if c2 == ',' then
                         (parseMembers f (skipWS r4)).map (fun p => ((k2, v) :: p.1, p.2))
                       else if c2 == '}' then some ([(k2, v)], r4)
                       else none
                 else none) := rfl
        rw [e, parseStringBody_escape]
        dsimp only
        rw [skipWS_cons _ _ (by decide)]
        dsimp only
        simp only [show ((':' : Char) == ':') = true from by decide, if_true]
        rw [parseValue_serialize v0 (',' :: (serializeFields (kv2 :: fs2) ++ '}' :: r)) f
          hwv (by simp [delimOk]) (by
            simp only [List.length_append, List.length_cons] at hfuel
            omega)]
        dsimp only
        rw [skipWS_cons _ _ (by decide)]
        dsimp only
        simp only [show ((',' : Char) == ',') = true from by decide, if_true]
        obtain ⟨k2, v2⟩ := kv2
        obtain ⟨tl2, htl2⟩ := serializeFields_head k2 v2 fs2
        have hZ2 : serializeFields ((k2, v2) :: fs2) ++ '}' :: r =
            '\"' :: (tl2 ++ '}' :: r) := by
          rw [htl2]
          simp
        rw [hZ2, skipWS_cons _ _ (by decide), ← hZ2]
        rw [parseMembers_serialize ((k2, v2) :: fs2) r (by simp) hwrest f (by
          simp only [List.length_append, List.length_cons] at hfuel
          omega)]
        rfl
  termination_by sizeOf fs

end

/-- `JSON.parse` round trip: the serialization of a well-formed value
parses back to exactly that value. -/
theorem parseJSON_serialize (v : Json) (hwf : v.wf = true) :
    parseJSON (serialize v) = some v := by
  unfold parseJSON
  have h := parseValue_serialize v [] (3 * (serialize v).length + 3) hwf trivial
    (by omega)
  rw [List.append_nil] at h
  rw [h]
  rfl

/-! ## The fence regex on wrapped and fence-free text -/

theorem startsTriple_three (a b c : Char) (t : List Char) :
    startsTriple (a :: b :: c :: t) = (a == btick && b == btick && c == btick) := rfl

/-- Unfolding of a failed triple search at a cons. -/
theorem findTripleIdx_cons_none (c : Char) (l : List Char)
    (h : findTripleIdx (c :: l) = none) :
    startsTriple (c :: l) = false ∧ findTripleIdx l = none := by
  by_cases hst : startsTriple (c :: l)
  · rw [show findTripleIdx (c :: l) = some 0 from by simp [findTripleIdx, hst]] at h
    exact absurd h (by simp)
  · refine ⟨by simpa using hst, ?_⟩
    rw [show findTripleIdx (c :: l) = (findTripleIdx l).map (· + 1) from by
      simp [findTripleIdx, hst]] at h
    exact Option.map_eq_none'.mp h

/-- A text without a triple backtick, followed by a newline, relocates the
first triple of the continuation. -/
theorem findTriple_append_nl (S : List Char) (l : List Char)
    (h : findTripleIdx S = none) :
    findTripleIdx (S ++ '\n' :: l) =
      (findTripleIdx ('\n' :: l)).map (· + S.length) := by
  induction S with
  | nil => simp
  | cons c S' ih =>
    obtain ⟨hst, hnone⟩ := findTripleIdx_cons_none c S' h
    have hst2 : startsTriple (c :: (S' ++ '\n' :: l)) = false := by
      cases S' with
      | nil =>
        cases l with
        | nil => rfl
        | cons d l' =>
          rw [show c :: ([] ++ '\n' :: d :: l') = c :: '\n' :: d :: l' from rfl,
            startsTriple_three]
          simp [show (('\n' : Char) == btick) = false from by decide]
      | cons c2 S2 =>
        cases S2 with
        | nil =>
          rw [show c :: ([c2] ++ '\n' :: l) = c :: c2 :: '\n' :: l from rfl,
            startsTriple_three]
          simp [show (('\n' : Char) == btick) = false from by decide]
        | cons c3 S3 =>
          rw [show c :: ((c2 :: c3 :: S3) ++ '\n' :: l) =
              c :: c2 :: c3 :: (S3 ++ '\n' :: l) from rfl, startsTriple_three]
          rw [startsTriple_three] at hst
          exact hst
    rw [show (c :: S') ++ '\n' :: l = c :: (S' ++ '\n' :: l) from rfl]
    rw [show findTripleIdx (c :: (S' ++ '\n' :: l)) =
        (findTripleIdx (S' ++ '\n' :: l)).map (· + 1) from by
      simp [findTripleIdx, hst2]]
    rw [ih hnone]
    cases hx : findTripleIdx ('\n' :: l) with
    | none => simp
    | some n => simp [List.length_cons, Nat.add_assoc]

/-- The fence regex never matches a text without a triple backtick. -/
theorem fenceCapture_none (l : List Char) (h : findTripleIdx l = none) :
    fenceCapture l = none := by
  induction l with
  | nil => rfl
  | cons c t ih =>
    obtain ⟨hst, hn⟩ := findTripleIdx_cons_none c t h
    simp [fenceCapture, hst, ih hn]

/-- On `fenceWrap S` with a fence-free, non-whitespace-delimited `S`, the
regex captures exactly `S`. -/
theorem fenceCapture_wrap (S : List Char) (hS : findTripleIdx S = none)
    (c0 : Char) (T : List Char) (hcons : S = c0 :: T) (hc0 : regexWS c0 = false)
    (c1 : Char) (T2 : List Char) (hsnoc : S = T2 ++ [c1])
    (hc1 : regexWS c1 = false) :
    fenceCapture (fenceWrap S) = some S := by
  have e1 : fenceCapture (fenceWrap S) =
      (match tryComplete ('j' :: 's' :: 'o' :: 'n' :: '\n' ::
          (S ++ '\n' :: btick :: btick :: [btick])) with
       | some cap => some cap
       | none =>
         fenceCapture (btick :: btick :: 'j' :: 's' :: 'o' :: 'n' :: '\n' ::
           (S ++ '\n' :: btick :: btick :: [btick]))) := by
    rw [show fenceWrap S = btick :: (btick :: btick :: 'j' :: 's' :: 'o' :: 'n' :: '\n' ::
      (S ++ '\n' :: btick :: btick :: [btick])) from rfl]
    rw [show fenceCapture (btick :: (btick :: btick :: 'j' :: 's' :: 'o' :: 'n' :: '\n' ::
        (S ++ '\n' :: btick :: btick :: [btick]))) =
      if startsTriple (btick :: btick :: btick :: 'j' :: 's' :: 'o' :: 'n' :: '\n' ::
          (S ++ '\n' :: btick :: btick :: [btick])) then
        (match tryComplete ('j' :: 's' :: 'o' :: 'n' :: '\n' ::
            (S ++ '\n' :: btick :: btick :: [btick])) with
         | some cap => some cap
         | none =>
           fenceCapture (btick :: btick :: 'j' :: 's' :: 'o' :: 'n' :: '\n' ::
             (S ++ '\n' :: btick :: btick :: [btick])))
      else fenceCapture (btick :: btick :: 'j' :: 's' :: 'o' :: 'n' :: '\n' ::
        (S ++ '\n' :: btick :: btick :: [btick])) from rfl]
    rw [startsTriple_three]
    simp
  rw [e1]
  have e2 : tryComplete ('j' :: 's' :: 'o' :: 'n' :: '\n' ::
      (S ++ '\n' :: btick :: btick :: [btick])) =
      match findTripleIdx (('\n' :: (S ++ '\n' :: btick :: btick :: [btick])).dropWhile regexWS) with
      | none => none
      | some m =>
        some (dropTrailingWS ((('\n' :: (S ++ '\n' :: btick :: btick :: [btick])).dropWhile regexWS).take m)) := rfl
  rw [e2]
  have e3 : ('\n' :: (S ++ '\n' :: btick :: btick :: [btick])).dropWhile regexWS =
      S ++ '\n' :: btick :: btick :: [btick] := by
    rw [show (('\n' :: (S ++ '\n' :: btick :: btick :: [btick])).dropWhile regexWS) =
      ((S ++ '\n' :: btick :: btick :: [btick]).dropWhile regexWS) from by
        simp [List.dropWhile_cons, show regexWS '\n' = true from by decide]]
    rw [hcons]
    simp [List.dropWhile_cons, hc0]
  rw [e3]
  have e4 : findTripleIdx (S ++ '\n' :: btick :: btick :: [btick]) =
      some (1 + S.length) := by
    rw [findTriple_append_nl S _ hS]
    rw [show findTripleIdx ('\n' :: btick :: btick :: [btick]) = some 1 from by decide]
    rfl
  rw [e4]
  dsimp only
  have e5 : (S ++ '\n' :: btick :: btick :: [btick]).take (1 + S.length) =
      S ++ ['\n'] := by
    rw [Nat.add_comm 1 S.length, List.take_append]
    rfl
  rw [e5]
  have e6 : dropTrailingWS (S ++ ['\n']) = S := by
    unfold dropTrailingWS
    rw [List.reverse_append]
    rw [show (['\n'] : List Char).reverse = ['\n'] from rfl]
    rw [show (['\n'] ++ S.reverse : List Char) = '\n' :: S.reverse from rfl]
    rw [List.dropWhile_cons]
    simp only [show regexWS '\n' = true from by decide, if_true]
    rw [hsnoc, List.reverse_append]
    rw [show ([c1] : List Char).reverse = [c1] from rfl]
    rw [show ([c1] ++ T2.reverse : List Char) = c1 :: T2.reverse from rfl]
    rw [List.dropWhile_cons]
    simp only [hc1, Bool.false_eq_true, if_false]
    simp
  rw [e6]

/-- C6 (amended): for a well-formed JSON object whose serialization
contains no triple backtick, feeding the fenced wrapping of its
serialization to the recovery parser yields exactly the original object
(strategy 1: the capture is the serialization itself, and the strict parse
round-trips). The triple-backtick proviso is forced by
the `trickyObj` counterexample. -/
theorem recover_fenceWrap_roundtrip (fs : List (List Char × Json))
    (hwf : (Json.obj fs).wf = true)
    (hnt : findTripleIdx (serialize (Json.obj fs)) = none) :
    recover (fenceWrap (serialize (Json.obj fs))) = some (Json.obj fs) := by
  have hcons : serialize (Json.obj fs) = '{' :: (serializeFields fs ++ ['}']) := rfl
  have hsnoc : serialize (Json.obj fs) = ('{' :: serializeFields fs) ++ ['}'] := by
    rw [hcons]
    simp
  have hext := fenceCapture_wrap (serialize (Json.obj fs)) hnt '{' _ hcons
    (by decide) '}' ('{' :: serializeFields fs) hsnoc (by decide)
  have hcand : extractCandidate (fenceWrap (serialize (Json.obj fs))) =
      serialize (Json.obj fs) := by
    simp [extractCandidate, hext]
  simp only [recover, hcand, parseJSON_serialize (Json.obj fs) hwf]

/-- C6 amended witness: a concrete fence-free object round-trips. -/
theorem recover_fenceWrap_roundtrip_witness :
    recover (fenceWrap (serialize (Json.obj [(('a' :: []), Json.str ('b' :: []))]))) =
      some (Json.obj [(('a' :: []), Json.str ('b' :: []))]) :=
  recover_fenceWrap_roundtrip [(('a' :: []), Json.str ('b' :: []))]
    (by decide) (by decide)

/-! ## Typographic double quotes in place of the string delimiters -/

/-- `toCurly` does not create or destroy backticks. -/
theorem toCurly_pres_btick (c : Char) :
    ((if c == '\"' then rdq else c) == btick) = (c == btick) := by
  by_cases hc : c == '\"'
  · rw [if_pos hc, eq_of_beq hc]
    decide
  · rw [if_neg hc]

/-- A fence-free text stays fence-free under `toCurly`. -/
theorem findTriple_toCurly (l : List Char) (h : findTripleIdx l = none) :
    findTripleIdx (toCurly l) = none := by
  induction l with
  | nil => rfl
  | cons c t ih =>
    obtain ⟨hst, hn⟩ := findTripleIdx_cons_none c t h
    have htc : toCurly (c :: t) = (if c == '\"' then rdq else c) :: toCurly t := rfl
    have hst2 : startsTriple (toCurly (c :: t)) = false := by
      rw [htc]
      cases t with
      | nil => rfl
      | cons c2 t2 =>
        cases t2 with
        | nil => rfl
        | cons c3 t3 =>
          rw [show toCurly (c2 :: c3 :: t3) = (if c2 == '\"' then rdq else c2) ::
            (if c3 == '\"' then rdq else c3) :: toCurly t3 from rfl]
          rw [startsTriple_three, toCurly_pres_btick, toCurly_pres_btick,
            toCurly_pres_btick]
          rw [startsTriple_three] at hst
          exact hst
    rw [htc]
    rw [show findTripleIdx ((if c == '\"' then rdq else c) :: toCurly t) =
      if startsTriple ((if c == '\"' then rdq else c) :: toCurly t) then some 0
      else (findTripleIdx (toCurly t)).map (· + 1) from by simp [findTripleIdx]]
    rw [htc] at hst2
    rw [hst2]
    simp [ih hn]

/-- Quote sanitization inverts `toCurly` on text containing no typographic
quotes of its own. -/
theorem cleanQuotes_toCurly (S : List Char)
    (hq : ∀ c ∈ S, (c == ldq) = false ∧ (c == rdq) = false ∧
      (c == lsq) = false ∧ (c == rsq) = false) :
    cleanQuotes (toCurly S) = S := by
  induction S with
  | nil => rfl
  | cons c t ih =>
    have hc := hq c (List.mem_cons_self _ _)
    have hrest := ih (fun d hd => hq d (List.mem_cons_of_mem _ hd))
    rw [show toCurly (c :: t) = (if c == '\"' then rdq else c) :: toCurly t from rfl]
    rw [show cleanQuotes ((if c == '\"' then rdq else c) :: toCurly t) =
      (fun c => if c == ldq || c == rdq then '\"'
        else if c == lsq || c == rsq then apos else c)
        (if c == '\"' then rdq else c) :: cleanQuotes (toCurly t) from rfl]
    rw [hrest]
    by_cases hq2 : c == '\"'
    · rw [if_pos hq2, eq_of_beq hq2]
      simp [show ((rdq == ldq || rdq == rdq) = true) from by decide]
    · rw [if_neg hq2]
      simp [hc.1, hc.2.1, hc.2.2.1, hc.2.2.2]

/-- Strict JSON rejects a typographic quote where an object key's opening
quote is required. -/
theorem parseJSON_curlyHead (rest : List Char) :
    parseJSON ('{' :: rdq :: rest) = none := rfl

/-- C4 (amended): an object written with U+201D in place of each straight
double quote is recovered exactly — strategy 1 fails on the typographic
quotes (for a nonempty object), and strategy 2's replacement restores the
serialization, which round-trips. This holds provided the object's own
serialization contains no typographic quotes (else the replacement would
corrupt string contents) and no triple backtick (else the fence regex can
truncate the candidate); the single-quote-delimiter case of the original
claim is refuted by `recover_curlySingle_fails`. -/
theorem recover_toCurly_roundtrip (fs : List (List Char × Json))
    (hwf : (Json.obj fs).wf = true)
    (hnt : findTripleIdx (serialize (Json.obj fs)) = none)
    (hq : ∀ c ∈ serialize (Json.obj fs), (c == ldq) = false ∧ (c == rdq) = false ∧
      (c == lsq) = false ∧ (c == rsq) = false) :
    recover (toCurly (serialize (Json.obj fs))) = some (Json.obj fs) := by
  have hcand : extractCandidate (toCurly (serialize (Json.obj fs))) =
      toCurly (serialize (Json.obj fs)) := by
    simp [extractCandidate, fenceCapture_none _ (findTriple_toCurly _ hnt)]
  have hclean : cleanQuotes (toCurly (serialize (Json.obj fs))) =
      serialize (Json.obj fs) := cleanQuotes_toCurly _ hq
  cases fs with
  | nil => decide
  | cons kv fs' =>
    obtain ⟨k, v0⟩ := kv
    obtain ⟨tl, htl⟩ := serializeFields_head k v0 fs'
    have hshape : serialize (Json.obj ((k, v0) :: fs')) =
        '{' :: '\"' :: (tl ++ ['}']) := by
      rw [show serialize (Json.obj ((k, v0) :: fs')) =
        '{' :: (serializeFields ((k, v0) :: fs') ++ ['}']) from rfl, htl]
      simp
    have hcurly : toCurly (serialize (Json.obj ((k, v0) :: fs'))) =
        '{' :: rdq :: toCurly (tl ++ ['}']) := by
      rw [hshape]
      rw [show toCurly ('{' :: '\"' :: (tl ++ ['}'])) =
        (if ('{' : Char) == '\"' then rdq else '{') ::
        (if ('\"' : Char) == '\"' then rdq else '\"') :: toCurly (tl ++ ['}']) from rfl]
      simp
    have h1 : parseJSON (toCurly (serialize (Json.obj ((k, v0) :: fs')))) = none := by
      rw [hcurly]
      exact parseJSON_curlyHead _
    simp only [recover, hcand, h1, hclean, parseJSON_serialize _ hwf]

/-- C4 amended witness. -/
theorem recover_toCurly_roundtrip_witness :
    recover (toCurly (serialize (Json.obj [(('a' :: []), Json.str ('b' :: []))]))) =
      some (Json.obj [(('a' :: []), Json.str ('b' :: []))]) :=
  recover_toCurly_roundtrip [(('a' :: []), Json.str ('b' :: []))]
    (by decide) (by decide) (by decide)
